import Mathlib

/-!
# lip: the install command, the tooth file installer and the command dispatcher

A shallow embedding of

* `src/src/cmd/install/install.go`   (`cmdlipinstall.Run`),
* `src/src/toothfile/toothfile.go`   (`ToothFile.Install`),
* `src/pkg/cli/cmdlip/cmdlip.go`     (`cmdlip.Run`).

Stateful code is written as explicit state passing.  Every call the code makes
into another package (the repository fetcher, the record store, the operating
system) is a field of an environment structure: the code under study is
modelled once, for all behaviours of its collaborators.  Calls that matter to
the properties are appended to a trace of events.
-/

namespace Lip

/-! ## Versions and version ranges (package `versions`) -/

/-- Modelled from the spec: the `versions.Version` type is not among the source
files.  Section 3 describes it as an ordered triple (major, minor, patch). -/
structure Version where
  major : Nat
  minor : Nat
  patch : Nat
  deriving DecidableEq, Repr

/-- Modelled from the spec: `Version.String()`, the text put after the `@` of a
synthesised requirement specifier. -/
def Version.string (v : Version) : String :=
  toString v.major ++ "." ++ toString v.minor ++ "." ++ toString v.patch

namespace versions

/-- Modelled from the spec: `versions.LessThan`, the lexicographic order on
(major, minor, patch) of section 4.2. -/
def LessThan (a b : Version) : Bool :=
  decide (a.major < b.major) ||
    (decide (a.major = b.major) &&
      (decide (a.minor < b.minor) ||
        (decide (a.minor = b.minor) && decide (a.patch < b.patch))))

/-- Modelled from the spec: `versions.GreaterThan`, used by step 3 of
`cmdlipinstall.Run`; `a` is greater than `b` when `b` is less than `a`. -/
def GreaterThan (a b : Version) : Bool := LessThan b a

end versions

/-- Comparison operator of one match predicate. -/
inductive MatchOp where
  | eq | ne | ge | le | gt | lt
  deriving DecidableEq, Repr

/-- Modelled from the spec: one match predicate of a version range (section 3:
a comparison such as `>=`, `<=`, `=`, `!=` against a specific version). -/
structure VersionMatch where
  op : MatchOp
  version : Version
  deriving DecidableEq, Repr

/-- Modelled from the spec: `VersionMatch.Match(version)`, whether `v`
satisfies the single predicate `m`. -/
def VersionMatch.Match (m : VersionMatch) (v : Version) : Bool :=
  match m.op with
  | .eq => decide (v = m.version)
  | .ne => !decide (v = m.version)
  | .ge => !versions.LessThan v m.version
  | .le => !versions.GreaterThan v m.version
  | .gt => versions.GreaterThan v m.version
  | .lt => versions.LessThan v m.version

/-- A version range: alternative groups, each a list of predicates
(`[][]versionmatch.VersionMatch` in the metadata). -/
abbrev VersionRange := List (List VersionMatch)

/-- The range semantics the specification words (section 3, section 8): a
version satisfies the range when it satisfies all predicates of at least one
alternative group. -/
def rangeMatches (range : VersionRange) (v : Version) : Bool :=
  range.any (fun group => group.all (fun m => m.Match v))

/-- The specification's `selectBestVersion` (section 4.2): the first candidate,
in list order, that satisfies the range. -/
def selectBestVersion (candidates : List Version) (range : VersionRange) : Option Version :=
  candidates.find? (fun v => rangeMatches range v)

/-! ## Specifiers, metadata, tooth files, records -/

/-- The two kinds of specifier; the code only ever tests for
`specifiers.RequirementSpecifierType`. -/
inductive SpecifierType where
  | RequirementSpecifierType
  | DirectSpecifierType
  deriving DecidableEq, Repr

/-- Modelled from the spec: a `specifiers.Specifier` seen through the three
methods `Run` calls on it: `Type()`, `String()` and `ToothRepo()`. -/
structure Specifier where
  specifierType : SpecifierType
  string : String
  toothRepo : String
  deriving DecidableEq, Repr

/-- One `{source, destination}` pair of a placement list. -/
structure Placement where
  source : String
  destination : String
  deriving DecidableEq, Repr

/-- Modelled from the spec: the `metadata.Metadata` of a tooth (section 3).
`dependencies` is a Go map; the list gives its entries in the order in which
the `range` statement of the run visits them. -/
structure Metadata where
  toothPath : String
  version : Version
  dependencies : List (String × VersionRange)
  possession : List String
  placement : List Placement
  deriving DecidableEq, Repr

/-- `toothfile.ToothFile` (toothfile.go lines 16-19). -/
structure ToothFile where
  filePath : String
  metadata : Metadata
  deriving DecidableEq, Repr

/-- Modelled from the spec: a `toothrecord.ToothRecord`, the persisted metadata
snapshot of an installed tooth plus the manual-install flag. -/
structure ToothRecord where
  toothPath : String
  version : Version
  dependencies : List (String × VersionRange)
  possession : List String
  placement : List Placement
  isManuallyInstalled : Bool
  deriving DecidableEq, Repr

/-! ## `cmdlipinstall.Run` (install.go) -/

namespace cmdlipinstall

/-- `FlagDict` (install.go lines 20-25). -/
structure FlagDict where
  helpFlag : Bool
  upgradeFlag : Bool
  forceReinstallFlag : Bool
  yesFlag : Bool
  deriving DecidableEq, Repr

/-- Calls of `Run` that the properties speak about, in program order.
`logger.Info` lines are not recorded. -/
inductive Event where
  /-- A call `getTooth(specifier)`, recorded by `specifier.String()`. -/
  | fetch (specifier : String)
  /-- A call `os.Remove(path)`. -/
  | remove (path : String)
  /-- A call `cmdlipuninstall.Uninstall(recordFileName, possessionList)`. -/
  | uninstall (recordFileName : String) (possessionList : List String)
  /-- A call `Install(toothFile, isManuallyInstalled, yesFlag)`. -/
  | install (toothFile : ToothFile) (isManuallyInstalled : Bool) (yesFlag : Bool)
  /-- A call `logger.Error(message)`. -/
  | logError (message : String)
  deriving DecidableEq, Repr

/-- The collaborators of `Run`, none of which is among the source files.  `σ`
is the state of the outside world (cache, record store, workspace, network).
Functions that only inspect the world return a result; functions that may
change it also return the new world.  An error is its message. -/
structure Env (σ : Type) where
  /-- `specifiers.New(text)`. -/
  specifiersNew : String → Except String Specifier
  /-- `getTooth(specifier)`: `(isCached, downloadedToothFilePath, err)`. -/
  getTooth : Specifier → σ → Except String (Bool × String) × σ
  /-- `toothfile.New(filePath)`. -/
  toothfileNew : String → σ → Except String ToothFile
  /-- `os.Remove(path)`: the error, if any, and the world afterwards. -/
  osRemove : String → σ → Option String × σ
  /-- `toothrepo.FetchVersionList(toothPath)`. -/
  FetchVersionList : String → σ → Except String (List Version)
  /-- `toothrecord.IsToothInstalled(toothPath)`. -/
  IsToothInstalled : String → σ → Except String Bool
  /-- `localfile.RecordDir()`. -/
  RecordDir : σ → Except String String
  /-- `localfile.GetRecordFileName(toothPath)`. -/
  GetRecordFileName : String → String
  /-- `filepath.Join(dir, name)`. -/
  filepathJoin : String → String → String
  /-- `toothrecord.New(recordFilePath)`. -/
  toothrecordNew : String → σ → Except String ToothRecord
  /-- `cmdlipuninstall.Uninstall(recordFileName, possessionList)`. -/
  Uninstall : String → List String → σ → Option String × σ
  /-- `sortToothFiles(list)`. -/
  sortToothFiles : List ToothFile → Except String (List ToothFile)
  /-- `Install(toothFile, isManuallyInstalled, yesFlag)`. -/
  Install : ToothFile → Bool → Bool → σ → Option String × σ
  /-- Go leaves the iteration order of a map unspecified: `rangeOrder` is the
  order in which the `range` over `downloadedToothFiles` (line 293) visits the
  entries in this run. -/
  rangeOrder : List (String × String) → List (String × String)

/-- The world together with the trace of calls made so far. -/
structure State (σ : Type) where
  world : σ
  trace : List Event

/-- Append events to the trace. -/
def State.emit {σ : Type} (s : State σ) (es : List Event) : State σ :=
  { s with trace := s.trace ++ es }

/-- Result of a part of `Run`: either control goes on with a value, or `Run`
has executed a `return`. -/
inductive Step (σ α : Type) where
  | next (value : α) (s : State σ)
  | stop (s : State σ)

/-- The labelled loop `selectVersion` (lines 183-200) up to the point where a
version is chosen: the outer loop walks `versionList` in order, the two inner
loops walk every predicate of every group, and the first predicate whose
`Match` holds ends all three loops with that version. -/
def selectVersion (versionList : List Version) (versionRange : VersionRange) : Option Version :=
  versionList.find? (fun version =>
    versionRange.any (fun innerVersionRange =>
      innerVersionRange.any (fun versionMatch => versionMatch.Match version)))

/-- The loop over `dependencies` (lines 175-207).  `queue` is
`specifiersToFetch`; the result is the queue after all pushes. -/
def expandDependencies {σ : Type} (env : Env σ) (specifier : Specifier) :
    List (String × VersionRange) → List Specifier → State σ → Step σ (List Specifier)
  | [], queue, s => .next queue s
  | (toothPath, versionRange) :: rest, queue, s =>
    match env.FetchVersionList toothPath s.world with
    | .error e => .stop (s.emit [.logError e])
    | .ok versionList =>
      match selectVersion versionList versionRange with
      | none =>
        .stop (s.emit [.logError ("no version of " ++ toothPath ++
          " matches the requirement of " ++ specifier.string)])
      | some version =>
        match env.specifiersNew (toothPath ++ "@" ++ version.string) with
        | .error e => .stop (s.emit [.logError e])
        | .ok dependency => expandDependencies env specifier rest (queue ++ [dependency]) s

/-- Outcome of the fetch loop. -/
inductive Resolved (σ : Type) where
  /-- The queue ran empty: `downloadedToothFiles` and the state reached. -/
  | done (downloadedToothFiles : List (String × String)) (s : State σ)
  /-- `Run` returned from inside the loop. -/
  | stop (s : State σ)
  /-- The iteration budget of the model ran out with the queue not empty. -/
  | outOfFuel (s : State σ)

/-- The loop `for specifiersToFetch.Len() > 0` (lines 126-208).  The map
`downloadedToothFiles` is an association list in insertion order; a key is
only ever inserted when absent.  `fuel` bounds the number of iterations. -/
def resolve {σ : Type} (env : Env σ) :
    Nat → List Specifier → List (String × String) → State σ → Resolved σ
  | _, [], downloadedToothFiles, s => .done downloadedToothFiles s
  | 0, _ :: _, _, s => .outOfFuel s
  | fuel + 1, specifier :: queue, downloadedToothFiles, s =>
    if (downloadedToothFiles.lookup specifier.string).isSome then
      resolve env fuel queue downloadedToothFiles s
    else
      match env.getTooth specifier s.world with
      | (.error e, world) =>
        .stop { world := world, trace := s.trace ++ [.fetch specifier.string, .logError e] }
      | (.ok (_, downloadedToothFilePath), world) =>
        let s1 : State σ := { world := world, trace := s.trace ++ [.fetch specifier.string] }
        let downloaded := downloadedToothFiles ++ [(specifier.string, downloadedToothFilePath)]
        match env.toothfileNew downloadedToothFilePath world with
        | .error e => .stop (s1.emit [.logError e])
        | .ok toothFile =>
          if specifier.specifierType = .RequirementSpecifierType ∧
              toothFile.metadata.toothPath ≠ specifier.toothRepo then
            let s2 := s1.emit [.logError
              "the tooth path of the downloaded tooth file does not match the requirement specifier"]
            match env.osRemove downloadedToothFilePath s2.world with
            | (some e, world2) =>
              .stop { world := world2, trace := s2.trace ++
                [.remove downloadedToothFilePath,
                 .logError ("failed to remove the downloaded tooth file: " ++ e)] }
            | (none, world2) =>
              .stop { world := world2, trace := s2.trace ++ [.remove downloadedToothFilePath] }
          else
            match expandDependencies env specifier toothFile.metadata.dependencies queue s1 with
            | .stop s3 => .stop s3
            | .next queue2 s3 => resolve env fuel queue2 downloaded s3

/-- One iteration of the loop of step 3 (body of lines 224-279), run only when
`forceReinstallFlag || upgradeFlag` holds. -/
def upgradeOne {σ : Type} (env : Env σ) (flagDict : FlagDict)
    (downloadedToothFiles : List (String × String)) (specifier : Specifier)
    (s : State σ) : Step σ Unit :=
  if specifier.specifierType ≠ .RequirementSpecifierType then
    .next () (s.emit [.logError ("the specifier " ++ specifier.string ++
      " is not a requirement specifier. It cannot be used with the force-reinstall flag or the upgrade flag")])
  else
    match env.toothfileNew ((downloadedToothFiles.lookup specifier.string).getD "") s.world with
    | .error e => .stop (s.emit [.logError e])
    | .ok toothFile =>
      match env.IsToothInstalled toothFile.metadata.toothPath s.world with
      | .error e => .stop (s.emit [.logError e])
      | .ok false => .next () s
      | .ok true =>
        match env.RecordDir s.world with
        | .error e => .stop (s.emit [.logError e])
        | .ok recordDir =>
          let toothRecordFilePath :=
            env.filepathJoin recordDir (env.GetRecordFileName toothFile.metadata.toothPath)
          match env.toothrecordNew toothRecordFilePath s.world with
          | .error e => .stop (s.emit [.logError e])
          | .ok toothRecord =>
            if !flagDict.forceReinstallFlag &&
                !versions.GreaterThan toothFile.metadata.version toothRecord.version then
              .next () s
            else
              let possessionList := toothFile.metadata.possession
              let recordFileName := env.GetRecordFileName toothFile.metadata.toothPath
              match env.Uninstall recordFileName possessionList s.world with
              | (some e, world) =>
                .stop { world := world, trace := s.trace ++
                  [.uninstall recordFileName possessionList, .logError e] }
              | (none, world) =>
                .next () { world := world, trace := s.trace ++
                  [.uninstall recordFileName possessionList] }

/-- The loop `for _, specifier := range specifierList` of step 3. -/
def upgradeLoop {σ : Type} (env : Env σ) (flagDict : FlagDict)
    (downloadedToothFiles : List (String × String)) :
    List Specifier → State σ → Step σ Unit
  | [], s => .next () s
  | specifier :: rest, s =>
    match upgradeOne env flagDict downloadedToothFiles specifier s with
    | .stop s1 => .stop s1
    | .next _ s1 => upgradeLoop env flagDict downloadedToothFiles rest s1

/-- Step 3 (lines 217-281). -/
def upgradeStep {σ : Type} (env : Env σ) (flagDict : FlagDict)
    (downloadedToothFiles : List (String × String)) (specifierList : List Specifier)
    (s : State σ) : Step σ Unit :=
  if flagDict.forceReinstallFlag || flagDict.upgradeFlag then
    upgradeLoop env flagDict downloadedToothFiles specifierList s
  else
    .next () s

/-- The loop that opens every downloaded tooth file (lines 292-301). -/
def openDownloaded {σ : Type} (env : Env σ) :
    List (String × String) → List ToothFile → State σ → Step σ (List ToothFile)
  | [], downloadedToothFileList, s => .next downloadedToothFileList s
  | (_, downloadedToothFilePath) :: rest, downloadedToothFileList, s =>
    match env.toothfileNew downloadedToothFilePath s.world with
    | .error e =>
      .stop (s.emit [.logError ("failed to open the downloaded tooth file " ++
        downloadedToothFilePath ++ ": " ++ e)])
    | .ok toothFile => openDownloaded env rest (downloadedToothFileList ++ [toothFile]) s

/-- One iteration of the install loop (body of lines 310-334). -/
def installOne {σ : Type} (env : Env σ) (flagDict : FlagDict) (toothFile : ToothFile)
    (s : State σ) : Step σ Unit :=
  match env.IsToothInstalled toothFile.metadata.toothPath s.world with
  | .error e => .stop (s.emit [.logError e])
  | .ok true => .next () s
  | .ok false =>
    let isManuallyInstalled := false
    match env.Install toothFile isManuallyInstalled flagDict.yesFlag s.world with
    | (some e, world) =>
      .stop { world := world, trace := s.trace ++
        [.install toothFile isManuallyInstalled flagDict.yesFlag, .logError e] }
    | (none, world) =>
      .next () { world := world, trace := s.trace ++
        [.install toothFile isManuallyInstalled flagDict.yesFlag] }

/-- The loop `for _, toothFile := range downloadedToothFileList` (lines 310-334). -/
def installLoop {σ : Type} (env : Env σ) (flagDict : FlagDict) :
    List ToothFile → State σ → Step σ Unit
  | [], s => .next () s
  | toothFile :: rest, s =>
    match installOne env flagDict toothFile s with
    | .stop s1 => .stop s1
    | .next _ s1 => installLoop env flagDict rest s1

/-- Step 4 (lines 289-334). -/
def installStep {σ : Type} (env : Env σ) (flagDict : FlagDict)
    (downloadedToothFiles : List (String × String)) (s : State σ) : Step σ Unit :=
  match openDownloaded env (env.rangeOrder downloadedToothFiles) [] s with
  | .stop s1 => .stop s1
  | .next downloadedToothFileList s1 =>
    match env.sortToothFiles downloadedToothFileList with
    | .error e => .stop (s1.emit [.logError ("failed to sort the downloaded tooth files: " ++ e)])
    | .ok sorted => installLoop env flagDict sorted s1

/-- The loop that builds `specifierList` (lines 89-98). -/
def makeSpecifierList {σ : Type} (env : Env σ) :
    List String → List Specifier → Except String (List Specifier)
  | [], specifierList => .ok specifierList
  | specifierString :: rest, specifierList =>
    match env.specifiersNew specifierString with
    | .error e => .error e
    | .ok specifier => makeSpecifierList env rest (specifierList ++ [specifier])

/-- How a run of `Run` ended. -/
inductive Outcome where
  /-- The last line was reached ("Successfully installed all tooth files."). -/
  | finished
  /-- A `return` after a `logger.Error`. -/
  | aborted
  /-- The help message was printed and `Run` returned. -/
  | help
  /-- The process exited inside `flagSet.Parse` (`flag.ExitOnError`). -/
  | exit (code : Nat)
  /-- The iteration budget of the model ran out inside the fetch loop. -/
  | outOfFuel
  deriving DecidableEq, Repr

/-- Steps 3 and 4, entered when the fetch loop has run to its end. -/
def applySteps {σ : Type} (env : Env σ) (flagDict : FlagDict)
    (specifierList : List Specifier) (downloadedToothFiles : List (String × String))
    (s : State σ) : Outcome × State σ :=
  match upgradeStep env flagDict downloadedToothFiles specifierList s with
  | .stop s1 => (.aborted, s1)
  | .next _ s1 =>
    match installStep env flagDict downloadedToothFiles s1 with
    | .stop s2 => (.aborted, s2)
    | .next _ s2 => (.finished, s2)

/-- Steps 2 to 4 of `Run` (lines 106-337) for a parsed `flagDict` and a
non-empty `specifierList`. -/
def runSteps {σ : Type} (env : Env σ) (fuel : Nat) (flagDict : FlagDict)
    (specifierList : List Specifier) (s : State σ) : Outcome × State σ :=
  match resolve env fuel specifierList [] s with
  | .stop s1 => (.aborted, s1)
  | .outOfFuel s1 => (.outOfFuel, s1)
  | .done downloadedToothFiles s1 => applySteps env flagDict specifierList downloadedToothFiles s1

/-- `Run` from line 75 on: the flags are parsed into `flagDict`, `args` are
`flagSet.Args()`. -/
def runParsed {σ : Type} (env : Env σ) (fuel : Nat) (flagDict : FlagDict)
    (args : List String) (world : σ) : Outcome × State σ :=
  let s : State σ := { world := world, trace := [] }
  if flagDict.helpFlag then (.help, s)
  else
    match makeSpecifierList env args [] with
    | .error e => (.aborted, s.emit [.logError e])
    | .ok specifierList =>
      if specifierList.length = 0 then
        (.aborted, s.emit [.logError "missing requirement specifier or tooth url/path"])
      else runSteps env fuel flagDict specifierList s

end cmdlipinstall

/-! ## Flag parsing (Go standard library `flag`, boolean flags only) -/

namespace goflag

/-- Errors of `FlagSet.Parse`. -/
inductive FlagError where
  /-- "bad flag syntax: %s". -/
  | badFlag (arg : String)
  /-- "flag provided but not defined: -%s". -/
  | notDefined (name : String)
  /-- "invalid boolean value %q for -%s: parse error". -/
  | invalidBoolean (value : String) (name : String)
  /-- `flag.ErrHelp`: `-h` or `-help` given while not defined. -/
  | errHelp
  deriving DecidableEq, Repr

/-- `strconv.ParseBool`. -/
def parseBool (str : String) : Option Bool :=
  if str = "1" ∨ str = "t" ∨ str = "T" ∨ str = "TRUE" ∨ str = "true" ∨ str = "True" then
    some true
  else if str = "0" ∨ str = "f" ∨ str = "F" ∨ str = "FALSE" ∨ str = "false" ∨ str = "False" then
    some false
  else none

/-- The loop `for i := 1; i < len(name); i++` of `parseOne`, which cuts `name`
at the first `=` that is not its first character.  The argument is `name`
without its first character; the result is the rest of the name before the `=`
and, if there is one, the value after it. -/
def cutAtEquals : List Char → List Char × Option (List Char)
  | [] => ([], none)
  | c :: cs =>
    if c = '=' then ([], some cs)
    else
      match cutAtEquals cs with
      | (name, value) => (c :: name, value)

/-- `FlagSet.Parse(arguments)` for a flag set whose flags are all boolean, with
names `formal`.  The result is the list of assignments `(name, value)` made, in
order, and the remaining arguments `FlagSet.Args()`.  Go indexes bytes where
this model indexes characters; the tests made (`-`, `=`, a length below 2)
give the same answer on both. -/
def Parse (formal : List String) :
    List String → Except FlagError (List (String × Bool) × List String)
  | [] => .ok ([], [])
  | arg :: rest =>
    match arg.toList with
    | [] => .ok ([], arg :: rest)
    | [_] => .ok ([], arg :: rest)
    | c0 :: c1 :: tail =>
      if c0 ≠ '-' then .ok ([], arg :: rest)
      else if c1 = '-' ∧ tail = [] then .ok ([], rest)
      else
        let name := if c1 = '-' then tail else c1 :: tail
        match name with
        | [] => .error (.badFlag arg)
        | n0 :: ns =>
          if n0 = '-' ∨ n0 = '=' then .error (.badFlag arg)
          else
            match cutAtEquals ns with
            | (nameRest, value) =>
              let flagName := String.mk (n0 :: nameRest)
              if flagName ∈ formal then
                match value with
                | some v =>
                  match parseBool (String.mk v) with
                  | none => .error (.invalidBoolean (String.mk v) flagName)
                  | some b =>
                    match Parse formal rest with
                    | .error e => .error e
                    | .ok (assignments, args) => .ok ((flagName, b) :: assignments, args)
                | none =>
                  match Parse formal rest with
                  | .error e => .error e
                  | .ok (assignments, args) => .ok ((flagName, true) :: assignments, args)
              else if flagName = "help" ∨ flagName = "h" then .error .errHelp
              else .error (.notDefined flagName)

/-- Value of a boolean variable bound (by `BoolVar`) to the flag names `names`
after the assignments made by `Parse`: the last assignment to one of the names,
`false` (the default given to every `BoolVar` here) when there is none. -/
def boolVar (names : List String) (assignments : List (String × Bool)) : Bool :=
  match (assignments.reverse.find? (fun a => decide (a.1 ∈ names))) with
  | some a => a.2
  | none => false

end goflag

namespace cmdlipinstall

/-- `Run(args)` (install.go lines 45-337). -/
def Run {σ : Type} (env : Env σ) (fuel : Nat) (args : List String) (world : σ) :
    Outcome × State σ :=
  if args.length = 0 then (.help, { world := world, trace := [] })
  else
    match goflag.Parse ["help", "h", "upgrade", "force-reinstall", "yes", "y"] args with
    | .error .errHelp => (.exit 0, { world := world, trace := [] })
    | .error _ => (.exit 2, { world := world, trace := [] })
    | .ok (assignments, flagArgs) =>
      let flagDict : FlagDict :=
        { helpFlag := goflag.boolVar ["help", "h"] assignments
          upgradeFlag := goflag.boolVar ["upgrade"] assignments
          forceReinstallFlag := goflag.boolVar ["force-reinstall"] assignments
          yesFlag := goflag.boolVar ["yes", "y"] assignments }
      runParsed env fuel flagDict flagArgs world

end cmdlipinstall

/-! ## `ToothFile.Install` (toothfile.go) -/

namespace toothfile

/-- One entry `f` of `r.File`: its `Name` and what `f.Open()` gives, `none`
for an error and otherwise the bytes the returned reader yields. -/
structure ZipFile where
  name : String
  opened : Option (List Nat)
  deriving DecidableEq, Repr

/-- Calls of `Install` that write to the file system, in program order. -/
inductive Op where
  /-- `os.WriteFile(path, data, 0755)`. -/
  | writeFile (path : String) (data : List Nat)
  /-- `os.MkdirAll(path, 0755)`. -/
  | mkdirAll (path : String)
  /-- `os.Create(path)`. -/
  | create (path : String)
  /-- `io.Copy(fw, rc)`, `fw` being the file created at `path`. -/
  | copy (path : String) (data : List Nat)
  deriving DecidableEq, Repr

/-- The collaborators of `Install`; `σ` is the state of the file system. -/
structure Sys (σ : Type) where
  /-- `localfile.RecordDir()`. -/
  RecordDir : σ → Except String String
  /-- `localfile.GetRecordFileName(toothPath)`. -/
  GetRecordFileName : String → String
  /-- `os.Stat(path)` returned a nil error. -/
  stat : String → σ → Bool
  /-- `metadata.JSON()`. -/
  metadataJSON : Metadata → Except String (List Nat)
  /-- `os.WriteFile(path, data, 0755)`; the code discards its result. -/
  writeFile : String → List Nat → σ → σ
  /-- `localfile.WorkSpaceDir()`. -/
  WorkSpaceDir : σ → Except String String
  /-- `zip.OpenReader(path)`: `none` for an error, otherwise `r.File`. -/
  zipOpenReader : String → σ → Option (List ZipFile)
  /-- `filepath.Dir(path)`. -/
  filepathDir : String → String
  /-- `os.MkdirAll(path, 0755)`; the code discards its result. -/
  mkdirAll : String → σ → σ
  /-- `os.Create(path)`: whether the error is nil, and the world afterwards. -/
  create : String → σ → Bool × σ
  /-- `io.Copy(fw, rc)` into the file created at `path`; the code discards its
  result. -/
  copy : String → List Nat → σ → σ

/-- The file system together with the write calls made so far. -/
structure State (σ : Type) where
  world : σ
  ops : List Op

/-- The inner loop `for _, f := range r.File` (lines 123-142) for one
placement.  The first component of the result is the error returned by
`Install` from inside the loop, `none` when the loop runs to its end. -/
def copyEntries {σ : Type} (sys : Sys σ) (filePath source destination : String) :
    List ZipFile → State σ → Option String × State σ
  | [], s => (none, s)
  | f :: rest, s =>
    if f.name = source then
      match f.opened with
      | none => (some ("failed to open " ++ source ++ " in " ++ filePath), s)
      | some rc =>
        match sys.create destination s.world with
        | (false, world) =>
          (some ("failed to create " ++ destination),
            { world := world, ops := s.ops ++ [.create destination] })
        | (true, world) =>
          copyEntries sys filePath source destination rest
            { world := sys.copy destination rc world,
              ops := s.ops ++ [.create destination, .copy destination rc] }
    else copyEntries sys filePath source destination rest s

/-- The loop `for _, placement := range t.metadata.Placement` (lines 114-143). -/
def placeAll {σ : Type} (sys : Sys σ) (filePath workSpaceDir : String) (files : List ZipFile) :
    List Placement → State σ → Option String × State σ
  | [], s => (none, s)
  | placement :: rest, s =>
    let source := placement.source
    let destination := workSpaceDir ++ "/" ++ placement.destination
    let s1 : State σ :=
      { world := sys.mkdirAll (sys.filepathDir destination) s.world,
        ops := s.ops ++ [.mkdirAll (sys.filepathDir destination)] }
    match copyEntries sys filePath source destination files s1 with
    | (some e, s2) => (some e, s2)
    | (none, s2) => placeAll sys filePath workSpaceDir files rest s2

/-- `func (t ToothFile) Install() error` (toothfile.go lines 73-146): the error
returned (`none` for nil) and the state reached. -/
def Install {σ : Type} (sys : Sys σ) (t : ToothFile) (world : σ) : Option String × State σ :=
  match sys.RecordDir world with
  | .error e => (some e, { world := world, ops := [] })
  | .ok recordDir =>
    let recordFilePath := recordDir ++ "/" ++ sys.GetRecordFileName t.metadata.toothPath
    if sys.stat recordFilePath world then
      (some "the tooth is already installed", { world := world, ops := [] })
    else
      match sys.metadataJSON t.metadata with
      | .error e => (some e, { world := world, ops := [] })
      | .ok metadataJSON =>
        let s1 : State σ :=
          { world := sys.writeFile recordFilePath metadataJSON world,
            ops := [.writeFile recordFilePath metadataJSON] }
        match sys.WorkSpaceDir s1.world with
        | .error e => (some e, s1)
        | .ok workSpaceDir =>
          match sys.zipOpenReader t.filePath s1.world with
          | none => (some ("failed to open tooth file " ++ t.filePath), s1)
          | some files => placeAll sys t.filePath workSpaceDir files t.metadata.placement s1

end toothfile

/-! ## `cmdlip.Run` (cmdlip.go) -/

namespace cmdlip

/-- `FlagDict` (cmdlip.go lines 17-22). -/
structure FlagDict where
  helpFlag : Bool
  versionFlag : Bool
  verboseFlag : Bool
  quietFlag : Bool
  deriving DecidableEq, Repr

/-- The constant `helpMessage` (cmdlip.go lines 24-43), line by line. -/
def helpMessage : String :=
  "\n" ++
  "Usage:\n" ++
  "  lip [options] [<command> [subcommand options]] ...\n" ++
  "\n" ++
  "Commands:\n" ++
  "  autoremove                  Uninstall tooths that are not depended by any other tooths.\n" ++
  "  cache                       Inspect and manage Lip\x27s cache.\n" ++
  "  exec                        Execute a Lip tool.\n" ++
  "  install                     Install a tooth.\n" ++
  "  list                        List installed tooths.\n" ++
  "  show                        Show information about installed tooths.\n" ++
  "  tooth                       Maintain a tooth.\n" ++
  "  uninstall                   Uninstall a tooth.\n" ++
  "\n" ++
  "Options:\n" ++
  "  -h, --help                  Show help.\n" ++
  "  -V, --version               Show version and exit.\n" ++
  "  -v, --verbose               Show verbose output.\n" ++
  "  -q, --quiet                 Show only errors.\n"

/-- The lines of a text, cut at every line feed. -/
def splitLines : List Char → List (List Char)
  | [] => [[]]
  | c :: cs =>
    if c = '\n' then [] :: splitLines cs
    else
      match splitLines cs with
      | [] => [[c]]
      | line :: lines => (c :: line) :: lines

/-- The first word of a line: leading blanks dropped, up to the next blank. -/
def firstWord (line : List Char) : String :=
  String.mk ((line.dropWhile (fun c => decide (c = ' '))).takeWhile
    (fun c => decide (c ≠ ' ')))

/-- The command names the help message lists: the first word of every line
between the line `Commands:` and the next empty line. -/
def listedCommands : List String :=
  ((((splitLines helpMessage.toList).dropWhile
      (fun line => decide (line ≠ "Commands:".toList))).drop 1).takeWhile
      (fun line => decide (line ≠ []))).map firstWord

/-- The `Run` functions of the subcommand packages applied to the context of
the call: the error returned for an argument list, `none` for nil. -/
structure Env where
  cmdlipautoremoveRun : List String → Option String
  cmdlipcacheRun : List String → Option String
  cmdlipexecRun : List String → Option String
  cmdlipinstallRun : List String → Option String
  cmdliplistRun : List String → Option String

/-- The errors `Run` builds. -/
inductive Error where
  /-- "cannot parse flags: %w". -/
  | cannotParseFlags (err : goflag.FlagError)
  /-- "verbose and quiet flags are mutually exclusive". -/
  | mutuallyExclusive
  /-- "failed to run the %command command: %w". -/
  | failedToRun (command : String) (err : String)
  /-- "unknown command: lip %v". -/
  | unknownCommand (arg : String)
  /-- "no command specified. See lip --help for more information". -/
  | noCommandSpecified
  deriving DecidableEq, Repr

/-- What a call of `Run` gives back. -/
inductive Result where
  /-- The nil error. -/
  | nil
  /-- A non-nil error. -/
  | error (err : Error)
  /-- A run-time panic: `args[1:]` on an empty `args`. -/
  | panic
  deriving DecidableEq, Repr

/-- A call to a subcommand: the package and the arguments passed. -/
structure Call where
  package : String
  args : List String
  deriving DecidableEq, Repr

/-- The `switch flagSet.Arg(0)` of lines 98-134 followed by line 137.
`rest` is `flagSet.Args()[1:]`. -/
def dispatch (env : Env) (arg0 : String) (rest : List String) : List Call × Result :=
  if arg0 = "autoreremove" then
    match env.cmdlipautoremoveRun rest with
    | some e => ([⟨"cmdlipautoremove", rest⟩], .error (.failedToRun "autoreremove" e))
    | none => ([⟨"cmdlipautoremove", rest⟩], .nil)
  else if arg0 = "cache" then
    match env.cmdlipcacheRun rest with
    | some e => ([⟨"cmdlipcache", rest⟩], .error (.failedToRun "cache" e))
    | none => ([⟨"cmdlipcache", rest⟩], .nil)
  else if arg0 = "exec" then
    match env.cmdlipexecRun rest with
    | some e => ([⟨"cmdlipexec", rest⟩], .error (.failedToRun "exec" e))
    | none => ([⟨"cmdlipexec", rest⟩], .nil)
  else if arg0 = "install" then
    match env.cmdlipinstallRun rest with
    | some e => ([⟨"cmdlipinstall", rest⟩], .error (.failedToRun "install" e))
    | none => ([⟨"cmdlipinstall", rest⟩], .error .noCommandSpecified)
  else if arg0 = "list" then
    match env.cmdliplistRun rest with
    | some e => ([⟨"cmdliplist", rest⟩], .error (.failedToRun "list" e))
    | none => ([⟨"cmdliplist", rest⟩], .error .noCommandSpecified)
  else
    ([], .error (.unknownCommand arg0))

/-- `Run(ctx, args)` (cmdlip.go lines 45-138): the subcommand calls made and
the value returned. -/
def Run (env : Env) (args : List String) : List Call × Result :=
  match args with
  | [] => ([], .panic)
  | _ :: flagArgs =>
    match goflag.Parse ["help", "h", "version", "V", "verbose", "v", "quiet", "q"] flagArgs with
    | .error e => ([], .error (.cannotParseFlags e))
    | .ok (assignments, positional) =>
      let flagDict : FlagDict :=
        { helpFlag := goflag.boolVar ["help", "h"] assignments
          versionFlag := goflag.boolVar ["version", "V"] assignments
          verboseFlag := goflag.boolVar ["verbose", "v"] assignments
          quietFlag := goflag.boolVar ["quiet", "q"] assignments }
      if flagDict.helpFlag then ([], .nil)
      else if flagDict.versionFlag then ([], .nil)
      else if flagDict.verboseFlag && flagDict.quietFlag then ([], .error .mutuallyExclusive)
      else
        match positional with
        | arg0 :: rest => dispatch env arg0 rest
        | [] => ([], .error .noCommandSpecified)

end cmdlip

/-! ## A small concrete world for `cmdlipinstall.Run`

Used to run the model on concrete inputs.  The repository is a table; the
record store is the list of installed records. -/

namespace sim

/-- What the outside world offers to one run: the tooth file obtained for each
specifier string and the version list of each tooth path. -/
structure Repo where
  teeth : List (String × ToothFile)
  versionLists : List (String × List Version)

/-- State of the simulated world: the record store and the files removed with
`os.Remove`. -/
structure World where
  records : List ToothRecord
  removed : List String
  deriving DecidableEq, Repr

/-- The record written for a tooth file. -/
def recordOf (toothFile : ToothFile) (isManuallyInstalled : Bool) : ToothRecord :=
  { toothPath := toothFile.metadata.toothPath
    version := toothFile.metadata.version
    dependencies := toothFile.metadata.dependencies
    possession := toothFile.metadata.possession
    placement := toothFile.metadata.placement
    isManuallyInstalled := isManuallyInstalled }

/-- Record file name of a tooth path in the simulated world. -/
def recordFileName (toothPath : String) : String := toothPath ++ ".json"

/-- A requirement specifier `name@version`: the tooth repo is the text before
the first `@`. -/
def requirement (text : String) : Specifier :=
  { specifierType := .RequirementSpecifierType
    string := text
    toothRepo := String.mk (text.toList.takeWhile (fun c => decide (c ≠ '@'))) }

/-- The simulated collaborators: every call succeeds when the table has an
entry, tooth files are sorted as they come, `Uninstall` deletes the record with
the given file name and `Install` appends a record. -/
def env (repo : Repo) : cmdlipinstall.Env World where
  specifiersNew := fun text => .ok (requirement text)
  getTooth := fun specifier w =>
    match repo.teeth.lookup specifier.string with
    | some toothFile => (.ok (false, toothFile.filePath), w)
    | none => (.error "cannot fetch", w)
  toothfileNew := fun filePath _ =>
    match repo.teeth.find? (fun entry => decide (entry.2.filePath = filePath)) with
    | some entry => .ok entry.2
    | none => .error "failed to open tooth file"
  osRemove := fun path w => (none, { w with removed := w.removed ++ [path] })
  FetchVersionList := fun toothPath _ =>
    match repo.versionLists.lookup toothPath with
    | some versionList => .ok versionList
    | none => .error "cannot fetch version list"
  IsToothInstalled := fun toothPath w =>
    .ok (w.records.any (fun r => decide (r.toothPath = toothPath)))
  RecordDir := fun _ => .ok "records"
  GetRecordFileName := recordFileName
  filepathJoin := fun dir name => dir ++ "/" ++ name
  toothrecordNew := fun recordFilePath w =>
    match w.records.find? (fun r =>
      decide ("records" ++ "/" ++ recordFileName r.toothPath = recordFilePath)) with
    | some r => .ok r
    | none => .error "cannot open record"
  Uninstall := fun name _ w =>
    (none, { w with records :=
      w.records.filter (fun r => !decide (recordFileName r.toothPath = name)) })
  sortToothFiles := fun list => .ok list
  Install := fun toothFile isManuallyInstalled _ w =>
    (none, { w with records := w.records ++ [recordOf toothFile isManuallyInstalled] })
  rangeOrder := fun entries => entries

/-- A tooth file without placements. -/
def tooth (filePath toothPath : String) (version : Version)
    (dependencies : List (String × VersionRange)) (possession : List String) : ToothFile :=
  { filePath := filePath
    metadata :=
      { toothPath := toothPath, version := version, dependencies := dependencies,
        possession := possession, placement := [] } }

/-- Version `1.0.0`. -/
def v100 : Version := ⟨1, 0, 0⟩
/-- Version `1.5.0`. -/
def v150 : Version := ⟨1, 5, 0⟩
/-- Version `2.0.0`. -/
def v200 : Version := ⟨2, 0, 0⟩

/-- The range `[[">=1.0.0", "<2.0.0"]]` of section 8. -/
def rangeOneToTwo : VersionRange := [[⟨.ge, v100⟩, ⟨.lt, v200⟩]]

/-- A repository in which `a@1.0.0` depends on `b` within
`[[">=1.0.0", "<2.0.0"]]` and the version list of `b` is `2.0.0, 1.5.0`. -/
def repoAB : Repo where
  teeth :=
    [("a@1.0.0", tooth "cache/a" "a" v100 [("b", rangeOneToTwo)] ["a.dll"]),
     ("b@2.0.0", tooth "cache/b2" "b" v200 [] ["b.dll"]),
     ("b@1.5.0", tooth "cache/b15" "b" v150 [] ["b.dll"])]
  versionLists := [("b", [v200, v150])]

/-- The empty world. -/
def emptyWorld : World := { records := [], removed := [] }

/-- The same collaborators, except that `Install` fails for the tooth paths
listed in `failing` (as it does when a file cannot be placed). -/
def envInstallFails (repo : Repo) (failing : List String) : cmdlipinstall.Env World :=
  { env repo with
    Install := fun toothFile isManuallyInstalled yesFlag w =>
      if toothFile.metadata.toothPath ∈ failing then (some "failed to place files", w)
      else (env repo).Install toothFile isManuallyInstalled yesFlag w }

/-- The same collaborators, except that no record can be read:
`toothrecord.New` fails (as it does on a record file that does not parse). -/
def envRecordUnreadable (repo : Repo) : cmdlipinstall.Env World :=
  { env repo with toothrecordNew := fun _ _ => .error "cannot parse record" }

/-- A repository with two independent teeth `a` and `b`, and a newer `a`. -/
def repoTwo : Repo where
  teeth :=
    [("a@1.0.0", tooth "cache/a" "a" v100 [] ["a.dll"]),
     ("b@1.0.0", tooth "cache/b" "b" v100 [] ["b.dll"]),
     ("a@2.0.0", tooth "cache/a2" "a" v200 [] ["a2.dll"])]
  versionLists := []

/-- A world in which `a` 1.0.0 and `b` 1.0.0 are installed. -/
def worldAB : World :=
  { records :=
      [recordOf (tooth "cache/a" "a" v100 [] ["a.dll"]) true,
       recordOf (tooth "cache/b" "b" v100 [] ["b.dll"]) true]
    removed := [] }

/-- A repository in which `a@1.0.0` depends on `b` and the version list of `b`
is `2.0.0, 1.5.0`, but no archive of `b` can be fetched. -/
def repoMissingDependency : Repo where
  teeth := [("a@1.0.0", tooth "cache/a" "a" v100 [("b", rangeOneToTwo)] ["a.dll"])]
  versionLists := [("b", [v200, v150])]

/-- A repository in which the archive served for `foo@1.0.0` declares the
tooth path `bar`. -/
def repoMismatch : Repo where
  teeth := [("foo@1.0.0", tooth "cache/foo" "bar" v100 [] [])]
  versionLists := []

end sim

/-! ## A small concrete file system for `ToothFile.Install` -/

namespace simfs

/-- Files with their bytes, and directories. -/
structure FS where
  files : List (String × List Nat)
  dirs : List String
  deriving DecidableEq, Repr

/-- Create or replace the file at `path`. -/
def FS.put (fs : FS) (path : String) (data : List Nat) : FS :=
  { fs with files := (path, data) :: fs.files.filter (fun entry => !decide (entry.1 = path)) }

/-- Text of `path` before its last `/` (the whole text when there is none). -/
def parent (path : String) : String :=
  String.mk ((path.toList.reverse.dropWhile (fun c => decide (c ≠ '/'))).drop 1).reverse

/-- Whether `path` is a regular file. -/
def FS.isFile (fs : FS) (path : String) : Bool := (fs.files.lookup path).isSome

/-- Whether `path` is a directory. -/
def FS.isDir (fs : FS) (path : String) : Bool := decide (path ∈ fs.dirs)

/-- The prefixes of a path that end before a `/`, followed by the path itself;
`acc` is the text already read. -/
def ancestorsFrom (acc : List Char) : List Char → List (List Char)
  | [] => [acc]
  | c :: cs =>
    if c = '/' then acc :: ancestorsFrom (acc ++ [c]) cs
    else ancestorsFrom (acc ++ [c]) cs

/-- The directories `os.MkdirAll(path)` has to make: every ancestor of `path`
and `path` itself. -/
def ancestors (path : String) : List String :=
  ((ancestorsFrom [] path.toList).filter (fun a => !decide (a = []))).map String.mk

/-- The simulated file system calls over a table of archives, for plain
relative paths with `/` as separator.  A file is written or created only in a
directory that exists and never over a directory; `os.MkdirAll` makes the
directory and its missing ancestors unless one of them is a regular file;
`io.Copy` writes into the file `os.Create` made; `zip.OpenReader` fails on a
path missing from the table and `Open` on an entry marked unreadable.  A call
that fails leaves the file system as it was. -/
def sys (archives : List (String × List toothfile.ZipFile)) : toothfile.Sys FS where
  RecordDir := fun _ => .ok "records"
  GetRecordFileName := fun toothPath => toothPath ++ ".json"
  stat := fun path fs => fs.isFile path || fs.isDir path
  metadataJSON := fun metadata => .ok (metadata.toothPath.toList.map Char.toNat)
  writeFile := fun path data fs =>
    if fs.isDir (parent path) && !fs.isDir path then fs.put path data else fs
  WorkSpaceDir := fun _ => .ok "ws"
  zipOpenReader := fun path _ => archives.lookup path
  filepathDir := parent
  mkdirAll := fun path fs =>
    if (ancestors path).any (fun a => fs.isFile a) then fs
    else { fs with dirs := fs.dirs ++ (ancestors path).filter (fun a => !fs.isDir a) }
  create := fun path fs =>
    if fs.isDir (parent path) && !fs.isDir path then (true, fs.put path []) else (false, fs)
  copy := fun path data fs => if fs.isFile path then fs.put path data else fs

/-- A file system with the record directory, the workspace and a directory
`ws/plugins` in it. -/
def workspaceFS : FS := { files := [], dirs := ["records", "ws", "ws/plugins"] }

/-- The empty file system. -/
def emptyFS : FS := { files := [], dirs := [] }

/-- A tooth file `cache/a.tth` of tooth path `a` with the given placements. -/
def toothA (placement : List Placement) : ToothFile :=
  { filePath := "cache/a.tth"
    metadata :=
      { toothPath := "a", version := ⟨1, 0, 0⟩, dependencies := [], possession := [],
        placement := placement } }

/-- The archive table holding `cache/a.tth` with the entries `tooth.json` and
`a.dll`. -/
def archivesA : List (String × List toothfile.ZipFile) :=
  [("cache/a.tth", [⟨"tooth.json", some [123, 125]⟩, ⟨"a.dll", some [1, 2, 3]⟩])]

end simfs

/-! ## Observations on traces -/

namespace cmdlipinstall

/-- Whether an event is a call of `Install` or `Uninstall`. -/
def Event.isChange : Event → Bool
  | .install _ _ _ => true
  | .uninstall _ _ => true
  | _ => false

/-- Whether an event is a call of `Install` with `isManuallyInstalled` true. -/
def Event.manual : Event → Bool
  | .install _ isManuallyInstalled _ => isManuallyInstalled
  | _ => false

/-- Whether an event is a call of `Uninstall`. -/
def Event.isUninstall : Event → Bool
  | .uninstall _ _ => true
  | _ => false

/-- The arguments `name` and `possession` are those step 3 builds from a
downloaded tooth file: the tooth file opens, it is reported installed, its
record is read, `name` is the record file name of its tooth path and
`possession` the possession list the tooth file declares. -/
def FromToothFile {σ : Type} (env : Env σ) (name : String) (possession : List String) : Prop :=
  ∃ (path : String) (w : σ) (toothFile : ToothFile) (recordDir : String)
    (toothRecord : ToothRecord),
    env.toothfileNew path w = .ok toothFile ∧
    env.IsToothInstalled toothFile.metadata.toothPath w = .ok true ∧
    env.RecordDir w = .ok recordDir ∧
    env.toothrecordNew
      (env.filepathJoin recordDir (env.GetRecordFileName toothFile.metadata.toothPath)) w =
      .ok toothRecord ∧
    name = env.GetRecordFileName toothFile.metadata.toothPath ∧
    possession = toothFile.metadata.possession

/-- The specifier strings `getTooth` was called with, in order. -/
def fetches (trace : List Event) : List String :=
  trace.filterMap (fun e => match e with
    | .fetch specifier => some specifier
    | _ => none)

/-- The state a part of `Run` ended in. -/
def Step.state {σ α : Type} : Step σ α → State σ
  | .next _ s => s
  | .stop s => s

/-- The state the fetch loop ended in. -/
def Resolved.state {σ : Type} : Resolved σ → State σ
  | .done _ s => s
  | .stop s => s
  | .outOfFuel s => s

/-- A failure inside the loop over `dependencies` (lines 175-207), by its
cause: `DependencyFails env specifier dependencies s s1` holds when, walking
`dependencies` in order from state `s`, one dependency fails and the state
reached at the `return` is `s1`. -/
inductive DependencyFails {σ : Type} (env : Env σ) (specifier : Specifier) :
    List (String × VersionRange) → State σ → State σ → Prop where
  /-- `toothrepo.FetchVersionList` returns an error. -/
  | fetchVersionList (toothPath : String) (versionRange : VersionRange)
      (rest : List (String × VersionRange)) (s : State σ) (e : String) :
      env.FetchVersionList toothPath s.world = .error e →
      DependencyFails env specifier ((toothPath, versionRange) :: rest) s
        (s.emit [.logError e])
  /-- No version of the list is selected (`isMatched` stays false). -/
  | noVersion (toothPath : String) (versionRange : VersionRange)
      (rest : List (String × VersionRange)) (s : State σ) (versionList : List Version) :
      env.FetchVersionList toothPath s.world = .ok versionList →
      selectVersion versionList versionRange = none →
      DependencyFails env specifier ((toothPath, versionRange) :: rest) s
        (s.emit [.logError ("no version of " ++ toothPath ++
          " matches the requirement of " ++ specifier.string)])
  /-- `specifiers.New` fails on the specifier built for the selected version. -/
  | specifierError (toothPath : String) (versionRange : VersionRange)
      (rest : List (String × VersionRange)) (s : State σ) (versionList : List Version)
      (version : Version) (e : String) :
      env.FetchVersionList toothPath s.world = .ok versionList →
      selectVersion versionList versionRange = some version →
      env.specifiersNew (toothPath ++ "@" ++ version.string) = .error e →
      DependencyFails env specifier ((toothPath, versionRange) :: rest) s
        (s.emit [.logError e])
  /-- This dependency is pushed onto the queue and a later one fails. -/
  | later (toothPath : String) (versionRange : VersionRange)
      (rest : List (String × VersionRange)) (s s1 : State σ) (versionList : List Version)
      (version : Version) (dependency : Specifier) :
      env.FetchVersionList toothPath s.world = .ok versionList →
      selectVersion versionList versionRange = some version →
      env.specifiersNew (toothPath ++ "@" ++ version.string) = .ok dependency →
      DependencyFails env specifier rest s s1 →
      DependencyFails env specifier ((toothPath, versionRange) :: rest) s s1

/-- A failure of the resolution walk, by its cause: `WalkFails env n queue d s
s1` holds when the fetch loop, started with the queue `queue`, the map `d` and
the state `s`, fails in its `n`-th iteration for one of the six reasons for
which the loop returns, and `s1` is the state at that `return`. -/
inductive WalkFails {σ : Type} (env : Env σ) :
    Nat → List Specifier → List (String × String) → State σ → State σ → Prop where
  /-- The specifier popped is already downloaded; a later iteration fails. -/
  | skip (n : Nat) (specifier : Specifier) (queue : List Specifier)
      (d : List (String × String)) (s s1 : State σ) :
      (d.lookup specifier.string).isSome = true →
      WalkFails env n queue d s s1 →
      WalkFails env (n + 1) (specifier :: queue) d s s1
  /-- `getTooth` returns an error. -/
  | getToothError (specifier : Specifier) (queue : List Specifier)
      (d : List (String × String)) (s : State σ) (e : String) (world : σ) :
      (d.lookup specifier.string).isSome = false →
      env.getTooth specifier s.world = (.error e, world) →
      WalkFails env 1 (specifier :: queue) d s
        { world := world, trace := s.trace ++ [.fetch specifier.string, .logError e] }
  /-- `toothfile.New` returns an error. -/
  | toothfileError (specifier : Specifier) (queue : List Specifier)
      (d : List (String × String)) (s : State σ) (isCached : Bool) (path : String)
      (world : σ) (e : String) :
      (d.lookup specifier.string).isSome = false →
      env.getTooth specifier s.world = (.ok (isCached, path), world) →
      env.toothfileNew path world = .error e →
      WalkFails env 1 (specifier :: queue) d s
        { world := world, trace := s.trace ++ [.fetch specifier.string, .logError e] }
  /-- The tooth path of the tooth file is not the tooth repo of the requirement
  specifier: the downloaded file is removed with `os.Remove`. -/
  | pathMismatch (specifier : Specifier) (queue : List Specifier)
      (d : List (String × String)) (s : State σ) (isCached : Bool) (path : String)
      (world : σ) (toothFile : ToothFile) (removeError : Option String) (world2 : σ) :
      (d.lookup specifier.string).isSome = false →
      env.getTooth specifier s.world = (.ok (isCached, path), world) →
      env.toothfileNew path world = .ok toothFile →
      specifier.specifierType = .RequirementSpecifierType →
      toothFile.metadata.toothPath ≠ specifier.toothRepo →
      env.osRemove path world = (removeError, world2) →
      WalkFails env 1 (specifier :: queue) d s
        { world := world2,
          trace := s.trace ++ [.fetch specifier.string,
            .logError
              "the tooth path of the downloaded tooth file does not match the requirement specifier",
            .remove path] ++
            (match removeError with
             | some e => [.logError ("failed to remove the downloaded tooth file: " ++ e)]
             | none => []) }
  /-- A dependency of the tooth file fails (version list, no version matched,
  or specifier construction). -/
  | dependencyError (specifier : Specifier) (queue : List Specifier)
      (d : List (String × String)) (s s1 : State σ) (isCached : Bool) (path : String)
      (world : σ) (toothFile : ToothFile) :
      (d.lookup specifier.string).isSome = false →
      env.getTooth specifier s.world = (.ok (isCached, path), world) →
      env.toothfileNew path world = .ok toothFile →
      ¬ (specifier.specifierType = .RequirementSpecifierType ∧
          toothFile.metadata.toothPath ≠ specifier.toothRepo) →
      DependencyFails env specifier toothFile.metadata.dependencies
        { world := world, trace := s.trace ++ [.fetch specifier.string] } s1 →
      WalkFails env 1 (specifier :: queue) d s s1
  /-- This iteration succeeds and pushes the dependencies; a later one fails. -/
  | later (n : Nat) (specifier : Specifier) (queue queue2 : List Specifier)
      (d : List (String × String)) (s s2 s1 : State σ) (isCached : Bool) (path : String)
      (world : σ) (toothFile : ToothFile) :
      (d.lookup specifier.string).isSome = false →
      env.getTooth specifier s.world = (.ok (isCached, path), world) →
      env.toothfileNew path world = .ok toothFile →
      ¬ (specifier.specifierType = .RequirementSpecifierType ∧
          toothFile.metadata.toothPath ≠ specifier.toothRepo) →
      expandDependencies env specifier toothFile.metadata.dependencies queue
        { world := world, trace := s.trace ++ [.fetch specifier.string] } = .next queue2 s2 →
      WalkFails env n queue2 (d ++ [(specifier.string, path)]) s2 s1 →
      WalkFails env (n + 1) (specifier :: queue) d s s1

/-- What the replacement of a tooth relies on in the collaborators: a
successful `Uninstall` of the record file of a tooth path leaves that tooth
path not installed; neither an `Uninstall` nor the `Install` of another tooth
path makes a tooth path installed; `Uninstall` does not alter what
`toothfile.New` reads; the iteration over `downloadedToothFiles` visits every
entry and `sortToothFiles` keeps every tooth file. -/
structure RecordStoreLaws {σ : Type} (env : Env σ) : Prop where
  uninstall_clears : ∀ (toothPath : String) (possession : List String) (w w2 : σ),
    env.Uninstall (env.GetRecordFileName toothPath) possession w = (none, w2) →
    env.IsToothInstalled toothPath w2 = .ok false
  uninstall_keeps : ∀ (name : String) (possession : List String) (w : σ) (toothPath : String),
    env.IsToothInstalled toothPath w = .ok false →
    env.IsToothInstalled toothPath (env.Uninstall name possession w).2 = .ok false
  install_keeps : ∀ (toothFile : ToothFile) (m y : Bool) (w : σ) (toothPath : String),
    toothFile.metadata.toothPath ≠ toothPath →
    env.IsToothInstalled toothPath w = .ok false →
    env.IsToothInstalled toothPath (env.Install toothFile m y w).2 = .ok false
  toothfileNew_stable : ∀ (path name : String) (possession : List String) (w : σ),
    env.toothfileNew path (env.Uninstall name possession w).2 = env.toothfileNew path w
  rangeOrder_mem : ∀ (d : List (String × String)) (entry : String × String),
    entry ∈ d → entry ∈ env.rangeOrder d
  sort_mem : ∀ (list sorted : List ToothFile), env.sortToothFiles list = .ok sorted →
    ∀ toothFile ∈ list, toothFile ∈ sorted

/-- What skipping an installed tooth relies on in the collaborators: a tooth
path that is installed stays installed through the `Uninstall` of another
record file and through any `Install`. -/
structure KeepsInstalled {σ : Type} (env : Env σ) : Prop where
  uninstall_other : ∀ (name : String) (possession : List String) (w : σ) (toothPath : String),
    name ≠ env.GetRecordFileName toothPath →
    env.IsToothInstalled toothPath w = .ok true →
    env.IsToothInstalled toothPath (env.Uninstall name possession w).2 = .ok true
  install_any : ∀ (toothFile : ToothFile) (m y : Bool) (w : σ) (toothPath : String),
    env.IsToothInstalled toothPath w = .ok true →
    env.IsToothInstalled toothPath (env.Install toothFile m y w).2 = .ok true

end cmdlipinstall

/-! ## Theorems -/

open cmdlipinstall in
/-- C1: at the dependency `b` with range `[[">=1.0.0", "<2.0.0"]]` and version
list `2.0.0, 1.5.0`, the loop of `Run` selects `2.0.0`, which satisfies only
the first predicate of the group, and the run fetches `b@2.0.0`; the range
semantics of the specification rejects `2.0.0` and selects `1.5.0`. -/
theorem selectVersion_accepts_single_predicate :
    selectVersion [sim.v200, sim.v150] sim.rangeOneToTwo = some sim.v200 ∧
    rangeMatches sim.rangeOneToTwo sim.v200 = false ∧
    selectBestVersion [sim.v200, sim.v150] sim.rangeOneToTwo = some sim.v150 ∧
    fetches (Run (sim.env sim.repoAB) 10 ["a@1.0.0"] sim.emptyWorld).2.trace =
      ["a@1.0.0", "b@2.0.0"] := by
  decide

open cmdlipinstall in
/-- C5, as stated, fails: with `a` 1.0.0 installed, its record listing
`a.dll`, and the resolved `a` 2.0.0 declaring `a2.dll`, `Run --upgrade a@2.0.0`
hands to `Uninstall` the possession list of the new tooth file (`a2.dll`), not
the one recorded for the installed tooth (`a.dll`). -/
theorem uninstall_receives_new_possession :
    (sim.worldAB.records.map (fun r => (r.toothPath, r.possession))).lookup "a" =
      some ["a.dll"] ∧
    (Run (sim.env sim.repoTwo) 10 ["--upgrade", "a@2.0.0"] sim.worldAB).2.trace.filter
        Event.isChange =
      [.uninstall "a.json" ["a2.dll"],
       .install (sim.tooth "cache/a2" "a" sim.v200 [] ["a2.dll"]) false false] := by
  decide

/-- C6: for a placement whose source `missing.txt` names no entry of the
archive, `Install` returns nil and the destination `ws/out.txt` does not
exist afterwards; no `os.Create` or `io.Copy` was made for it. -/
theorem install_nil_without_placing :
    (toothfile.Install (simfs.sys simfs.archivesA)
        (simfs.toothA [⟨"missing.txt", "out.txt"⟩]) simfs.emptyFS).1 = none ∧
    (simfs.sys simfs.archivesA).stat "ws/out.txt"
        (toothfile.Install (simfs.sys simfs.archivesA)
          (simfs.toothA [⟨"missing.txt", "out.txt"⟩]) simfs.emptyFS).2.world = false ∧
    (toothfile.Install (simfs.sys simfs.archivesA)
        (simfs.toothA [⟨"missing.txt", "out.txt"⟩]) simfs.emptyFS).2.ops =
      [.writeFile "records/a.json" [97], .mkdirAll "ws"] := by
  decide

/-- C7, as stated, fails: the record directory and the workspace exist and the
destination `ws/plugins` is a directory, so the record is written, `os.Create`
fails and `Install` returns an error, yet the record file `records/a.json`,
absent before the call, exists after it. -/
theorem install_error_leaves_record :
    (simfs.sys simfs.archivesA).stat "records/a.json" simfs.workspaceFS = false ∧
    (toothfile.Install (simfs.sys simfs.archivesA) (simfs.toothA [⟨"a.dll", "plugins"⟩])
        simfs.workspaceFS).1 = some "failed to create ws/plugins" ∧
    (toothfile.Install (simfs.sys simfs.archivesA) (simfs.toothA [⟨"a.dll", "plugins"⟩])
        simfs.workspaceFS).2.world =
      { files := [("records/a.json", [97])], dirs := ["records", "ws", "ws/plugins"] } ∧
    (simfs.sys simfs.archivesA).stat "records/a.json"
        (toothfile.Install (simfs.sys simfs.archivesA) (simfs.toothA [⟨"a.dll", "plugins"⟩])
          simfs.workspaceFS).2.world = true := by
  decide

/-- C8: when the record file of the tooth exists, `Install` returns the error
"the tooth is already installed", makes no write call and leaves the file
system as it was. -/
theorem install_existing_record_rejected {σ : Type} (sys : toothfile.Sys σ) (t : ToothFile)
    (world : σ) (recordDir : String)
    (hdir : sys.RecordDir world = .ok recordDir)
    (hexists : sys.stat (recordDir ++ "/" ++ sys.GetRecordFileName t.metadata.toothPath)
      world = true) :
    (toothfile.Install sys t world).1 = some "the tooth is already installed" ∧
    (toothfile.Install sys t world).2.ops = [] ∧
    (toothfile.Install sys t world).2.world = world := by
  simp [toothfile.Install, hdir, hexists]

/-- C8 at a concrete input: `records/a.json` exists. -/
theorem install_existing_record_rejected_witness :
    (toothfile.Install (simfs.sys simfs.archivesA) (simfs.toothA [⟨"a.dll", "a.dll"⟩])
        { files := [("records/a.json", [97])], dirs := [] }).1 =
      some "the tooth is already installed" ∧
    (toothfile.Install (simfs.sys simfs.archivesA) (simfs.toothA [⟨"a.dll", "a.dll"⟩])
        { files := [("records/a.json", [97])], dirs := [] }).2.ops = [] ∧
    (toothfile.Install (simfs.sys simfs.archivesA) (simfs.toothA [⟨"a.dll", "a.dll"⟩])
        { files := [("records/a.json", [97])], dirs := [] }).2.world =
      { files := [("records/a.json", [97])], dirs := [] } :=
  install_existing_record_rejected (simfs.sys simfs.archivesA)
    (simfs.toothA [⟨"a.dll", "a.dll"⟩]) { files := [("records/a.json", [97])], dirs := [] }
    "records" rfl (by decide)

/-- C10: whatever the subcommands return, `Run` does not return nil for the
subcommands `install`, `list` and `autoremove`: after a successful `install` or
`list` it returns the "no command specified" error although a positional
argument was given, and `autoremove` is an unknown command. -/
theorem run_subcommand_not_nil (env : cmdlip.Env) (rest : List String) :
    (cmdlip.Run env ("lip" :: "install" :: rest)).2 ≠ .nil ∧
    (cmdlip.Run env ("lip" :: "list" :: rest)).2 ≠ .nil ∧
    (cmdlip.Run env ("lip" :: "autoremove" :: rest)).2 ≠ .nil ∧
    (env.cmdlipinstallRun rest = none →
      cmdlip.Run env ("lip" :: "install" :: rest) =
        ([⟨"cmdlipinstall", rest⟩], .error .noCommandSpecified)) ∧
    (env.cmdliplistRun rest = none →
      cmdlip.Run env ("lip" :: "list" :: rest) =
        ([⟨"cmdliplist", rest⟩], .error .noCommandSpecified)) := by
  have hi : goflag.Parse ["help", "h", "version", "V", "verbose", "v", "quiet", "q"]
      ("install" :: rest) = .ok ([], "install" :: rest) := by
    simp [goflag.Parse]
  have hl : goflag.Parse ["help", "h", "version", "V", "verbose", "v", "quiet", "q"]
      ("list" :: rest) = .ok ([], "list" :: rest) := by
    simp [goflag.Parse]
  have ha : goflag.Parse ["help", "h", "version", "V", "verbose", "v", "quiet", "q"]
      ("autoremove" :: rest) = .ok ([], "autoremove" :: rest) := by
    simp [goflag.Parse]
  refine ⟨?_, ?_, ?_, ?_, ?_⟩
  · cases h : env.cmdlipinstallRun rest <;>
      simp [cmdlip.Run, hi, goflag.boolVar, cmdlip.dispatch, h]
  · cases h : env.cmdliplistRun rest <;>
      simp [cmdlip.Run, hl, goflag.boolVar, cmdlip.dispatch, h]
  · simp [cmdlip.Run, ha, goflag.boolVar, cmdlip.dispatch]
  · intro h
    simp [cmdlip.Run, hi, goflag.boolVar, cmdlip.dispatch, h]
  · intro h
    simp [cmdlip.Run, hl, goflag.boolVar, cmdlip.dispatch, h]

/-! ### Lemmas on the fetch loop -/

namespace cmdlipinstall

theorem fetches_append (a b : List Event) : fetches (a ++ b) = fetches a ++ fetches b := by
  simp [fetches, List.filterMap_append]

theorem lookup_isSome_iff_mem_keys (k : String) (d : List (String × String)) :
    (d.lookup k).isSome = true ↔ k ∈ d.map Prod.fst := by
  induction d with
  | nil => simp
  | cons entry rest ih =>
    obtain ⟨k2, v⟩ := entry
    by_cases h : k = k2
    · subst h
      simp [List.lookup]
    · have h2 : (k == k2) = false := by simpa using h
      simp [List.lookup, h2, ih, h]

theorem expandDependencies_next {σ : Type} (env : Env σ) (specifier : Specifier)
    (deps : List (String × VersionRange)) (queue queue2 : List Specifier) (s s2 : State σ)
    (h : expandDependencies env specifier deps queue s = .next queue2 s2) : s2 = s := by
  induction deps generalizing queue with
  | nil =>
    simp only [expandDependencies, Step.next.injEq] at h
    exact h.2.symm
  | cons dep rest ih =>
    obtain ⟨toothPath, versionRange⟩ := dep
    simp only [expandDependencies] at h
    split at h
    · cases h
    · split at h
      · cases h
      · split at h
        · cases h
        · exact ih _ h

theorem expandDependencies_stop {σ : Type} (env : Env σ) (specifier : Specifier)
    (deps : List (String × VersionRange)) (queue : List Specifier) (s s2 : State σ)
    (h : expandDependencies env specifier deps queue s = .stop s2) :
    ∃ message, s2 = s.emit [.logError message] := by
  induction deps generalizing queue with
  | nil => simp [expandDependencies] at h
  | cons dep rest ih =>
    obtain ⟨toothPath, versionRange⟩ := dep
    simp only [expandDependencies] at h
    split at h
    · cases h
      exact ⟨_, rfl⟩
    · split at h
      · cases h
        exact ⟨_, rfl⟩
      · split at h
        · cases h
          exact ⟨_, rfl⟩
        · exact ih _ h

/-- The fetch loop adds no `Install` and no `Uninstall` call to the trace. -/
theorem resolve_no_change {σ : Type} (env : Env σ) (fuel : Nat) (queue : List Specifier)
    (d : List (String × String)) (s : State σ) :
    ∀ e ∈ (resolve env fuel queue d s).state.trace, e.isChange = true → e ∈ s.trace := by
  induction fuel generalizing queue d s with
  | zero =>
    cases queue with
    | nil => intro e he _; simpa [resolve, Resolved.state] using he
    | cons specifier rest => intro e he _; simpa [resolve, Resolved.state] using he
  | succ fuel ih =>
    cases queue with
    | nil => intro e he _; simpa [resolve, Resolved.state] using he
    | cons specifier rest =>
      intro e he hc
      simp only [resolve] at he
      split at he
      · exact ih _ _ _ e he hc
      · split at he
        · simp only [Resolved.state, List.mem_append, List.mem_cons, List.mem_singleton,
            List.not_mem_nil, or_false] at he
          rcases he with he | he | he
          · exact he
          · subst he; simp [Event.isChange] at hc
          · subst he; simp [Event.isChange] at hc
        · split at he
          · simp only [Resolved.state, State.emit, List.mem_append, List.mem_cons,
              List.mem_singleton, List.not_mem_nil, or_false] at he
            rcases he with (he | he) | he
            · exact he
            · subst he; simp [Event.isChange] at hc
            · subst he; simp [Event.isChange] at hc
          · split at he
            · split at he
              · simp only [Resolved.state, State.emit, List.mem_append, List.mem_cons,
                  List.mem_singleton, List.not_mem_nil, or_false] at he
                rcases he with ((he | he) | he) | he | he
                · exact he
                all_goals (subst he; simp [Event.isChange] at hc)
              · simp only [Resolved.state, State.emit, List.mem_append, List.mem_cons,
                  List.mem_singleton, List.not_mem_nil, or_false] at he
                rcases he with ((he | he) | he) | he
                · exact he
                all_goals (subst he; simp [Event.isChange] at hc)
            · split at he
              · rename_i s3 hexp
                obtain ⟨message, hs3⟩ := expandDependencies_stop env _ _ _ _ _ hexp
                subst hs3
                simp only [Resolved.state, State.emit, List.mem_append, List.mem_cons,
                  List.mem_singleton, List.not_mem_nil, or_false] at he
                rcases he with (he | he) | he
                · exact he
                all_goals (subst he; simp [Event.isChange] at hc)
              · rename_i queue2 s3 hexp
                have hs3 := expandDependencies_next env _ _ _ _ _ _ hexp
                subst hs3
                have := ih _ _ _ e he hc
                simp only [List.mem_append, List.mem_singleton] at this
                rcases this with this | this
                · exact this
                · subst this; simp [Event.isChange] at hc

theorem fetches_emit_logError {σ : Type} (s : State σ) (message : String) :
    fetches (s.emit [.logError message]).trace = fetches s.trace := by
  simp [State.emit, fetches, List.filterMap_append]

/-- While the keys of `downloadedToothFiles` are the specifiers fetched so far,
without repetition, the fetch loop never fetches a specifier string twice. -/
theorem resolve_fetches_nodup {σ : Type} (env : Env σ) (fuel : Nat) (queue : List Specifier)
    (d : List (String × String)) (s : State σ)
    (hk : fetches s.trace = d.map Prod.fst) (hn : (d.map Prod.fst).Nodup) :
    (fetches (resolve env fuel queue d s).state.trace).Nodup := by
  induction fuel generalizing queue d s with
  | zero =>
    cases queue with
    | nil => simpa [resolve, Resolved.state, hk] using hn
    | cons specifier rest => simpa [resolve, Resolved.state, hk] using hn
  | succ fuel ih =>
    cases queue with
    | nil => simpa [resolve, Resolved.state, hk] using hn
    | cons specifier rest =>
      simp only [resolve]
      split
      · exact ih _ _ _ hk hn
      · rename_i hlook
        have hnot : specifier.string ∉ d.map Prod.fst := by
          rw [← lookup_isSome_iff_mem_keys]
          exact hlook
        have hsnoc : (d.map Prod.fst ++ [specifier.string]).Nodup := by
          rw [List.nodup_append]
          refine ⟨hn, List.nodup_singleton _, ?_⟩
          intro a ha hb
          simp only [List.mem_singleton] at hb
          subst hb
          exact hnot ha
        split
        · simp only [Resolved.state, fetches_append, hk]
          simpa [fetches] using hsnoc
        · split
          · simp only [Resolved.state, State.emit, fetches_append, hk]
            simpa [fetches] using hsnoc
          · split
            · split
              · simp only [Resolved.state, State.emit, fetches_append, hk]
                simpa [fetches] using hsnoc
              · simp only [Resolved.state, State.emit, fetches_append, hk]
                simpa [fetches] using hsnoc
            · split
              · rename_i s3 hexp
                obtain ⟨message, hs3⟩ := expandDependencies_stop env _ _ _ _ _ hexp
                subst hs3
                simp only [Resolved.state, State.emit, fetches_append, hk]
                simpa [fetches] using hsnoc
              · rename_i queue2 s3 hexp
                have hs3 := expandDependencies_next env _ _ _ _ _ _ hexp
                subst hs3
                apply ih
                · rw [fetches_append, hk]
                  simp [fetches]
                · simpa using hsnoc

theorem upgradeOne_fetches {σ : Type} (env : Env σ) (flagDict : FlagDict)
    (d : List (String × String)) (specifier : Specifier) (s : State σ) :
    fetches (upgradeOne env flagDict d specifier s).state.trace = fetches s.trace := by
  unfold upgradeOne
  repeat' (first | split | (dsimp only; split))
  all_goals simp [Step.state, State.emit, fetches, List.filterMap_append]

theorem upgradeLoop_fetches {σ : Type} (env : Env σ) (flagDict : FlagDict)
    (d : List (String × String)) (specifierList : List Specifier) (s : State σ) :
    fetches (upgradeLoop env flagDict d specifierList s).state.trace = fetches s.trace := by
  induction specifierList generalizing s with
  | nil => simp [upgradeLoop, Step.state]
  | cons specifier rest ih =>
    have h1 := upgradeOne_fetches env flagDict d specifier s
    simp only [upgradeLoop]
    split
    · rename_i s1 heq
      rw [heq] at h1
      simpa [Step.state] using h1
    · rename_i u s1 heq
      rw [heq] at h1
      rw [ih]
      simpa [Step.state] using h1

theorem openDownloaded_next {σ : Type} (env : Env σ) (entries : List (String × String))
    (acc list : List ToothFile) (s s1 : State σ)
    (h : openDownloaded env entries acc s = .next list s1) : s1 = s := by
  induction entries generalizing acc with
  | nil =>
    simp only [openDownloaded, Step.next.injEq] at h
    exact h.2.symm
  | cons entry rest ih =>
    obtain ⟨k, path⟩ := entry
    simp only [openDownloaded] at h
    split at h
    · cases h
    · exact ih _ h

theorem openDownloaded_stop {σ : Type} (env : Env σ) (entries : List (String × String))
    (acc : List ToothFile) (s s1 : State σ)
    (h : openDownloaded env entries acc s = .stop s1) :
    ∃ message, s1 = s.emit [.logError message] := by
  induction entries generalizing acc with
  | nil => simp [openDownloaded] at h
  | cons entry rest ih =>
    obtain ⟨k, path⟩ := entry
    simp only [openDownloaded] at h
    split at h
    · cases h
      exact ⟨_, rfl⟩
    · exact ih _ h

theorem installOne_fetches {σ : Type} (env : Env σ) (flagDict : FlagDict)
    (toothFile : ToothFile) (s : State σ) :
    fetches (installOne env flagDict toothFile s).state.trace = fetches s.trace := by
  unfold installOne
  repeat' (first | split | (dsimp only; split))
  all_goals simp [Step.state, State.emit, fetches, List.filterMap_append]

theorem installLoop_fetches {σ : Type} (env : Env σ) (flagDict : FlagDict)
    (list : List ToothFile) (s : State σ) :
    fetches (installLoop env flagDict list s).state.trace = fetches s.trace := by
  induction list generalizing s with
  | nil => simp [installLoop, Step.state]
  | cons toothFile rest ih =>
    have h1 := installOne_fetches env flagDict toothFile s
    simp only [installLoop]
    split
    · rename_i s1 heq
      rw [heq] at h1
      simpa [Step.state] using h1
    · rename_i u s1 heq
      rw [heq] at h1
      rw [ih]
      simpa [Step.state] using h1

theorem applySteps_fetches {σ : Type} (env : Env σ) (flagDict : FlagDict)
    (specifierList : List Specifier) (d : List (String × String)) (s : State σ) :
    fetches (applySteps env flagDict specifierList d s).2.trace = fetches s.trace := by
  have h3 : fetches (upgradeStep env flagDict d specifierList s).state.trace =
      fetches s.trace := by
    unfold upgradeStep
    split
    · exact upgradeLoop_fetches env flagDict d specifierList s
    · rfl
  unfold applySteps
  split
  · rename_i s1 heq
    rw [heq] at h3
    simpa [Step.state] using h3
  · rename_i u s1 heq
    rw [heq] at h3
    simp only [Step.state] at h3
    have h4 : fetches (installStep env flagDict d s1).state.trace = fetches s1.trace := by
      unfold installStep
      split
      · rename_i s2 hopen
        obtain ⟨message, hs2⟩ := openDownloaded_stop env _ _ _ _ hopen
        subst hs2
        simp [Step.state, fetches_emit_logError]
      · rename_i list s2 hopen
        have hs2 := openDownloaded_next env _ _ _ _ _ hopen
        subst hs2
        split
        · simp [Step.state, fetches_emit_logError]
        · exact installLoop_fetches env flagDict _ _
    split
    · rename_i s2 heq2
      rw [heq2] at h4
      simp only [Step.state] at h4
      simp [h4, h3]
    · rename_i u2 s2 heq2
      rw [heq2] at h4
      simp only [Step.state] at h4
      simp [h4, h3]

theorem runSteps_fetches_nodup {σ : Type} (env : Env σ) (fuel : Nat) (flagDict : FlagDict)
    (specifierList : List Specifier) (world : σ) :
    (fetches (runSteps env fuel flagDict specifierList
      { world := world, trace := [] }).2.trace).Nodup := by
  have h := resolve_fetches_nodup env fuel specifierList [] { world := world, trace := [] }
    (by simp [fetches]) (by simp)
  unfold runSteps
  split
  · rename_i s1 heq
    rw [heq] at h
    simpa [Resolved.state] using h
  · rename_i s1 heq
    rw [heq] at h
    simpa [Resolved.state] using h
  · rename_i d s1 heq
    rw [heq] at h
    rw [applySteps_fetches]
    simpa [Resolved.state] using h

end cmdlipinstall

/-! ### The failures of the walk, cause by cause -/

namespace cmdlipinstall

/-- Each failure of a dependency makes the loop over `dependencies` execute a
`return` in the state named by the failure. -/
theorem dependencyFails_stop {σ : Type} (env : Env σ) (specifier : Specifier)
    (deps : List (String × VersionRange)) (s s1 : State σ)
    (h : DependencyFails env specifier deps s s1) (queue : List Specifier) :
    expandDependencies env specifier deps queue s = .stop s1 := by
  induction h generalizing queue with
  | fetchVersionList toothPath versionRange rest s e hfetch =>
    simp [expandDependencies, hfetch]
  | noVersion toothPath versionRange rest s versionList hfetch hnone =>
    simp [expandDependencies, hfetch, hnone]
  | specifierError toothPath versionRange rest s versionList version e hfetch hsome hnew =>
    simp [expandDependencies, hfetch, hsome, hnew]
  | later toothPath versionRange rest s s1 versionList version dependency hfetch hsome hnew
      _ ih =>
    simp only [expandDependencies, hfetch, hsome, hnew]
    exact ih _

/-- Every `return` of the loop over `dependencies` is one of the failures. -/
theorem expandDependencies_stop_fails {σ : Type} (env : Env σ) (specifier : Specifier)
    (deps : List (String × VersionRange)) (queue : List Specifier) (s s1 : State σ)
    (h : expandDependencies env specifier deps queue s = .stop s1) :
    DependencyFails env specifier deps s s1 := by
  induction deps generalizing queue with
  | nil => simp [expandDependencies] at h
  | cons dep rest ih =>
    obtain ⟨toothPath, versionRange⟩ := dep
    simp only [expandDependencies] at h
    split at h
    · rename_i e hfetch
      cases h
      exact .fetchVersionList toothPath versionRange rest s e hfetch
    · rename_i versionList hfetch
      split at h
      · rename_i hnone
        cases h
        exact .noVersion toothPath versionRange rest s versionList hfetch hnone
      · rename_i version hsome
        split at h
        · rename_i e hnew
          cases h
          exact .specifierError toothPath versionRange rest s versionList version e hfetch
            hsome hnew
        · rename_i dependency hnew
          exact .later toothPath versionRange rest s s1 versionList version dependency hfetch
            hsome hnew (ih _ h)

/-- Each failure of the walk makes the fetch loop execute a `return` in the
state named by the failure, as soon as the fuel covers the iterations up to
it. -/
theorem walkFails_stop {σ : Type} (env : Env σ) (n : Nat) (queue : List Specifier)
    (d : List (String × String)) (s s1 : State σ) (h : WalkFails env n queue d s s1)
    (fuel : Nat) (hfuel : n ≤ fuel) : resolve env fuel queue d s = .stop s1 := by
  induction h generalizing fuel with
  | skip n specifier queue d s s1 hlook _ ih =>
    obtain ⟨f, rfl⟩ : ∃ f, fuel = f + 1 := ⟨fuel - 1, by omega⟩
    simp only [resolve, hlook, if_true]
    exact ih f (by omega)
  | getToothError specifier queue d s e world hlook hget =>
    obtain ⟨f, rfl⟩ : ∃ f, fuel = f + 1 := ⟨fuel - 1, by omega⟩
    simp [resolve, hlook, hget]
  | toothfileError specifier queue d s isCached path world e hlook hget hopen =>
    obtain ⟨f, rfl⟩ : ∃ f, fuel = f + 1 := ⟨fuel - 1, by omega⟩
    simp [resolve, hlook, hget, hopen, State.emit]
  | pathMismatch specifier queue d s isCached path world toothFile removeError world2 hlook
      hget hopen hreq hne hrem =>
    obtain ⟨f, rfl⟩ : ∃ f, fuel = f + 1 := ⟨fuel - 1, by omega⟩
    cases removeError <;> simp [resolve, hlook, hget, hopen, hreq, hne, hrem, State.emit]
  | dependencyError specifier queue d s s1 isCached path world toothFile hlook hget hopen
      hok hdep =>
    obtain ⟨f, rfl⟩ : ∃ f, fuel = f + 1 := ⟨fuel - 1, by omega⟩
    have hexp := dependencyFails_stop env specifier _ _ _ hdep queue
    simp only [resolve, hlook, hget, hopen]
    rw [if_neg (by simp), if_neg hok, hexp]
  | later n specifier queue queue2 d s s2 s1 isCached path world toothFile hlook hget hopen
      hok hexp _ ih =>
    obtain ⟨f, rfl⟩ : ∃ f, fuel = f + 1 := ⟨fuel - 1, by omega⟩
    simp only [resolve, hlook, hget, hopen]
    rw [if_neg (by simp), if_neg hok, hexp]
    exact ih f (by omega)

/-- Every `return` of the fetch loop is one of the failures of the walk. -/
theorem resolve_stop_fails {σ : Type} (env : Env σ) (fuel : Nat) (queue : List Specifier)
    (d : List (String × String)) (s s1 : State σ)
    (h : resolve env fuel queue d s = .stop s1) :
    ∃ n, n ≤ fuel ∧ WalkFails env n queue d s s1 := by
  induction fuel generalizing queue d s with
  | zero =>
    cases queue with
    | nil => simp [resolve] at h
    | cons specifier rest => simp [resolve] at h
  | succ fuel ih =>
    cases queue with
    | nil => simp [resolve] at h
    | cons specifier rest =>
      simp only [resolve] at h
      split at h
      · rename_i hlook
        obtain ⟨n, hn, hw⟩ := ih _ _ _ h
        exact ⟨n + 1, by omega, .skip n specifier rest d s s1 hlook hw⟩
      · rename_i hlook
        have hlook2 : (d.lookup specifier.string).isSome = false :=
          Bool.eq_false_iff.mpr hlook
        split at h
        · rename_i e world hget
          cases h
          exact ⟨1, by omega, .getToothError specifier rest d s e world hlook2 hget⟩
        · rename_i isCached path world hget
          split at h
          · rename_i e hopen
            cases h
            have := WalkFails.toothfileError specifier rest d s isCached path world e hlook2
              hget hopen
            exact ⟨1, by omega, by simpa [State.emit] using this⟩
          · rename_i toothFile hopen
            split at h
            · rename_i hmis
              split at h
              · rename_i e world2 hrem
                cases h
                have := WalkFails.pathMismatch specifier rest d s isCached path world
                  toothFile (some e) world2 hlook2 hget hopen hmis.1 hmis.2 hrem
                exact ⟨1, by omega, by simpa [State.emit] using this⟩
              · rename_i world2 hrem
                cases h
                have := WalkFails.pathMismatch specifier rest d s isCached path world
                  toothFile none world2 hlook2 hget hopen hmis.1 hmis.2 hrem
                exact ⟨1, by omega, by simpa [State.emit] using this⟩
            · rename_i hok
              split at h
              · rename_i s3 hexp
                cases h
                exact ⟨1, by omega, .dependencyError specifier rest d s s1 isCached path world
                  toothFile hlook2 hget hopen hok
                  (expandDependencies_stop_fails env _ _ _ _ _ hexp)⟩
              · rename_i queue2 s3 hexp
                obtain ⟨n, hn, hw⟩ := ih _ _ _ h
                exact ⟨n + 1, by omega, .later n specifier rest queue2 d s s3 s1 isCached path
                  world toothFile hlook2 hget hopen hok hexp hw⟩

end cmdlipinstall

open cmdlipinstall in
/-- C2: when a step of the resolution walk of `Run` fails (`getTooth` or
`toothfile.New` returns an error, the tooth path does not match the requirement
specifier, `FetchVersionList` or the construction of a dependency specifier
fails, or no version matches a dependency, in the first iteration or in a later
one: `WalkFails`), then with fuel for the iterations up to the failure `Run`
returns at once in the state of the failure and no call of `Install` or
`Uninstall` has been added to the trace.  Conversely every `return` of the
fetch loop is one of these failures, and it ends `Run` in the same way.  In the
path-mismatch case the loop logs the error, calls `os.Remove` on the downloaded
tooth file and returns in the world `os.Remove` left. -/
theorem resolve_failure_aborts_run {σ : Type} (env : Env σ) (flagDict : FlagDict)
    (specifierList : List Specifier) (s s1 : State σ) (n : Nat)
    (hfail : WalkFails env n specifierList [] s s1) (fuel : Nat) (hfuel : n ≤ fuel) :
    runSteps env fuel flagDict specifierList s = (.aborted, s1) ∧
    (∀ e ∈ s1.trace, e.isChange = true → e ∈ s.trace) ∧
    (∀ (fuel2 : Nat) (s2 : State σ), resolve env fuel2 specifierList [] s = .stop s2 →
      runSteps env fuel2 flagDict specifierList s = (.aborted, s2) ∧
      (∀ e ∈ s2.trace, e.isChange = true → e ∈ s.trace) ∧
      ∃ m, m ≤ fuel2 ∧ WalkFails env m specifierList [] s s2) ∧
    (∀ (fuel2 : Nat) (specifier : Specifier) (queue : List Specifier)
        (d : List (String × String)) (st : State σ) (isCached : Bool) (path : String)
        (world2 : σ) (toothFile : ToothFile),
      (d.lookup specifier.string).isSome = false →
      env.getTooth specifier st.world = (.ok (isCached, path), world2) →
      env.toothfileNew path world2 = .ok toothFile →
      specifier.specifierType = .RequirementSpecifierType →
      toothFile.metadata.toothPath ≠ specifier.toothRepo →
      ∃ tail, resolve env (fuel2 + 1) (specifier :: queue) d st =
          .stop { world := (env.osRemove path world2).2,
                  trace := st.trace ++ [.fetch specifier.string,
                    .logError
                      "the tooth path of the downloaded tooth file does not match the requirement specifier",
                    .remove path] ++ tail } ∧
        ∀ e ∈ tail, e.isChange = false) := by
  have hstop := walkFails_stop env n specifierList [] s s1 hfail fuel hfuel
  have hgen : ∀ (fuel2 : Nat) (s2 : State σ),
      resolve env fuel2 specifierList [] s = .stop s2 →
      runSteps env fuel2 flagDict specifierList s = (.aborted, s2) ∧
      (∀ e ∈ s2.trace, e.isChange = true → e ∈ s.trace) := by
    intro fuel2 s2 h2
    refine ⟨by simp [runSteps, h2], ?_⟩
    have h := resolve_no_change env fuel2 specifierList [] s
    rw [h2] at h
    exact h
  refine ⟨(hgen fuel s1 hstop).1, (hgen fuel s1 hstop).2, ?_, ?_⟩
  · intro fuel2 s2 h2
    exact ⟨(hgen fuel2 s2 h2).1, (hgen fuel2 s2 h2).2,
      resolve_stop_fails env fuel2 specifierList [] s s2 h2⟩
  · intro fuel2 specifier queue d st isCached path world2 toothFile hlook hget hopen hreq hne
    cases hrem : env.osRemove path world2 with
    | mk err world3 =>
      cases err with
      | none =>
        refine ⟨[], ?_, by simp⟩
        simp [resolve, hlook, hget, hopen, hreq, hne, hrem, State.emit]
      | some e =>
        refine ⟨[.logError ("failed to remove the downloaded tooth file: " ++ e)], ?_, ?_⟩
        · simp [resolve, hlook, hget, hopen, hreq, hne, hrem, State.emit]
        · simp [Event.isChange]

open cmdlipinstall in
/-- C2 at a concrete input: `a@1.0.0` is fetched and its dependency `b@2.0.0`
is queued; in the second iteration `getTooth` fails for `b@2.0.0`: the run
aborts there and nothing is installed, not even `a`. -/
theorem resolve_failure_aborts_run_witness :
    runSteps (sim.env sim.repoMissingDependency) 10 ⟨false, false, false, false⟩
        [sim.requirement "a@1.0.0"] { world := sim.emptyWorld, trace := [] } =
      (.aborted, { world := sim.emptyWorld,
                   trace := [.fetch "a@1.0.0", .fetch "b@2.0.0",
                     .logError "cannot fetch"] }) ∧
    (∀ e ∈ [Event.fetch "a@1.0.0", .fetch "b@2.0.0", .logError "cannot fetch"],
      e.isChange = true → e ∈ ([] : List Event)) :=
  ⟨(resolve_failure_aborts_run (sim.env sim.repoMissingDependency)
      ⟨false, false, false, false⟩ [sim.requirement "a@1.0.0"]
      { world := sim.emptyWorld, trace := [] }
      { world := sim.emptyWorld,
        trace := [.fetch "a@1.0.0", .fetch "b@2.0.0", .logError "cannot fetch"] } 2
      (.later 1 (sim.requirement "a@1.0.0") [] [sim.requirement "b@2.0.0"] []
        { world := sim.emptyWorld, trace := [] }
        { world := sim.emptyWorld, trace := [.fetch "a@1.0.0"] }
        { world := sim.emptyWorld,
          trace := [.fetch "a@1.0.0", .fetch "b@2.0.0", .logError "cannot fetch"] }
        false "cache/a" sim.emptyWorld
        (sim.tooth "cache/a" "a" sim.v100 [("b", sim.rangeOneToTwo)] ["a.dll"])
        rfl rfl rfl (by decide) rfl
        (.getToothError (sim.requirement "b@2.0.0") [] [("a@1.0.0", "cache/a")]
          { world := sim.emptyWorld, trace := [.fetch "a@1.0.0"] } "cannot fetch"
          sim.emptyWorld rfl rfl))
      10 (by decide)).1,
   (resolve_failure_aborts_run (sim.env sim.repoMissingDependency)
      ⟨false, false, false, false⟩ [sim.requirement "a@1.0.0"]
      { world := sim.emptyWorld, trace := [] }
      { world := sim.emptyWorld,
        trace := [.fetch "a@1.0.0", .fetch "b@2.0.0", .logError "cannot fetch"] } 2
      (.later 1 (sim.requirement "a@1.0.0") [] [sim.requirement "b@2.0.0"] []
        { world := sim.emptyWorld, trace := [] }
        { world := sim.emptyWorld, trace := [.fetch "a@1.0.0"] }
        { world := sim.emptyWorld,
          trace := [.fetch "a@1.0.0", .fetch "b@2.0.0", .logError "cannot fetch"] }
        false "cache/a" sim.emptyWorld
        (sim.tooth "cache/a" "a" sim.v100 [("b", sim.rangeOneToTwo)] ["a.dll"])
        rfl rfl rfl (by decide) rfl
        (.getToothError (sim.requirement "b@2.0.0") [] [("a@1.0.0", "cache/a")]
          { world := sim.emptyWorld, trace := [.fetch "a@1.0.0"] } "cannot fetch"
          sim.emptyWorld rfl rfl))
      10 (by decide)).2.1⟩

open cmdlipinstall in
/-- C9: in one run of `Run`, `getTooth` is called at most once per specifier
string, whatever the collaborators do and however the run ends; and a
specifier popped from the queue whose string is already a key of
`downloadedToothFiles` is dropped: the loop goes on with the rest of the
queue in the same state, without a fetch and without expanding
dependencies. -/
theorem getTooth_once_per_specifier {σ : Type} (env : Env σ) (fuel : Nat) (args : List String)
    (world : σ) :
    (fetches (Run env fuel args world).2.trace).Nodup ∧
    (∀ (fuel2 : Nat) (specifier : Specifier) (queue : List Specifier)
        (d : List (String × String)) (s : State σ),
      (d.lookup specifier.string).isSome = true →
      resolve env (fuel2 + 1) (specifier :: queue) d s = resolve env fuel2 queue d s) := by
  constructor
  · unfold Run
    split
    · simp [fetches]
    · split
      · simp [fetches]
      · simp [fetches]
      · unfold runParsed
        dsimp only
        split
        · simp [fetches]
        · split
          · simp [fetches, State.emit]
          · split
            · simp [fetches, State.emit]
            · exact runSteps_fetches_nodup env fuel _ _ world
  · intro fuel2 specifier queue d s h
    simp [resolve, h]

open cmdlipinstall in
/-- C9 at a concrete input: the roots `a@1.0.0`, `a@1.0.0` fetch `a@1.0.0`
exactly once. -/
theorem getTooth_once_per_specifier_witness :
    (fetches (Run (sim.env sim.repoTwo) 10 ["a@1.0.0", "a@1.0.0"]
      sim.emptyWorld).2.trace).Nodup ∧
    fetches (Run (sim.env sim.repoTwo) 10 ["a@1.0.0", "a@1.0.0"] sim.emptyWorld).2.trace =
      ["a@1.0.0"] ∧
    resolve (sim.env sim.repoTwo) 1 [sim.requirement "a@1.0.0"] [("a@1.0.0", "cache/a")]
        { world := sim.emptyWorld, trace := [.fetch "a@1.0.0"] } =
      resolve (sim.env sim.repoTwo) 0 [] [("a@1.0.0", "cache/a")]
        { world := sim.emptyWorld, trace := [.fetch "a@1.0.0"] } :=
  ⟨(getTooth_once_per_specifier (sim.env sim.repoTwo) 10 ["a@1.0.0", "a@1.0.0"]
      sim.emptyWorld).1,
   by decide,
   (getTooth_once_per_specifier (sim.env sim.repoTwo) 10 ["a@1.0.0", "a@1.0.0"]
      sim.emptyWorld).2 0 (sim.requirement "a@1.0.0") [] [("a@1.0.0", "cache/a")]
      { world := sim.emptyWorld, trace := [.fetch "a@1.0.0"] } (by decide)⟩

/-! ### Lemmas on `ToothFile.Install` -/

namespace toothfile

theorem copyEntries_keeps {σ : Type} (sys : Sys σ) (filePath source destination : String)
    (files : List ZipFile) (s : State σ) (path : String)
    (hcreate : ∀ dest w, sys.stat path w = true → sys.stat path (sys.create dest w).2 = true)
    (hcopy : ∀ dest data w, sys.stat path w = true →
      sys.stat path (sys.copy dest data w) = true) :
    (sys.stat path s.world = true →
      sys.stat path (copyEntries sys filePath source destination files s).2.world = true) ∧
    ∃ ext, (copyEntries sys filePath source destination files s).2.ops = s.ops ++ ext := by
  induction files generalizing s with
  | nil => exact ⟨fun hs => by simpa [copyEntries] using hs, [], by simp [copyEntries]⟩
  | cons f rest ih =>
    simp only [copyEntries]
    split
    · split
      · exact ⟨fun hs => hs, [], by simp⟩
      · split
        · rename_i world hc
          refine ⟨fun hs => ?_, [.create destination], rfl⟩
          have h1 := hcreate destination s.world hs
          rw [hc] at h1
          exact h1
        · rename_i world hc
          rename_i rc _ _
          obtain ⟨h3, ext, h4⟩ := ih
            { world := sys.copy destination rc world,
              ops := s.ops ++ [.create destination, .copy destination rc] }
          refine ⟨fun hs => ?_, [.create destination, .copy destination rc] ++ ext,
            by simp [h4]⟩
          have h1 := hcreate destination s.world hs
          rw [hc] at h1
          exact h3 (hcopy destination rc world h1)
    · exact ih s

theorem placeAll_keeps {σ : Type} (sys : Sys σ) (filePath workSpaceDir : String)
    (files : List ZipFile) (placements : List Placement) (s : State σ) (path : String)
    (hmkdir : ∀ dir w, sys.stat path w = true → sys.stat path (sys.mkdirAll dir w) = true)
    (hcreate : ∀ dest w, sys.stat path w = true → sys.stat path (sys.create dest w).2 = true)
    (hcopy : ∀ dest data w, sys.stat path w = true →
      sys.stat path (sys.copy dest data w) = true) :
    (sys.stat path s.world = true →
      sys.stat path (placeAll sys filePath workSpaceDir files placements s).2.world = true) ∧
    ∃ ext, (placeAll sys filePath workSpaceDir files placements s).2.ops = s.ops ++ ext := by
  induction placements generalizing s with
  | nil => exact ⟨fun hs => by simpa [placeAll] using hs, [], by simp [placeAll]⟩
  | cons placement rest ih =>
    have h2 := copyEntries_keeps sys filePath placement.source
      (workSpaceDir ++ "/" ++ placement.destination) files
      { world := sys.mkdirAll (sys.filepathDir (workSpaceDir ++ "/" ++ placement.destination))
          s.world,
        ops := s.ops ++
          [.mkdirAll (sys.filepathDir (workSpaceDir ++ "/" ++ placement.destination))] }
      path hcreate hcopy
    simp only [placeAll]
    split
    · rename_i e s2 heq
      rw [heq] at h2
      obtain ⟨h3, ext, h4⟩ := h2
      dsimp only at h3 h4
      exact ⟨fun hs => h3 (hmkdir _ _ hs),
        [.mkdirAll (sys.filepathDir (workSpaceDir ++ "/" ++ placement.destination))] ++ ext,
        by simp [h4]⟩
    · rename_i s2 heq
      rw [heq] at h2
      obtain ⟨h3, ext, h4⟩ := h2
      dsimp only at h3 h4
      obtain ⟨h5, ext2, h6⟩ := ih s2
      exact ⟨fun hs => h5 (h3 (hmkdir _ _ hs)),
        [.mkdirAll (sys.filepathDir (workSpaceDir ++ "/" ++ placement.destination))]
        ++ ext ++ ext2, by simp [h6, h4]⟩

end toothfile

/-- C7, amended: `Install` writes the record file before it places any file and
does not remove it afterwards.  If no write call was made, `Install` returned
an error and the file system is unchanged (these are the errors raised before
the write: `RecordDir` fails, the record file exists, the metadata cannot be
encoded).  If a write call was made, the first one is `os.WriteFile` of the
encoded metadata to the record file path, and when that call has created the
file, the file still exists when `Install` returns, with an error or with nil
(the later calls, `os.MkdirAll`, `os.Create` and `io.Copy`, delete no file).  A
nil return always comes with that write call. -/
theorem install_record_written_first {σ : Type} (sys : toothfile.Sys σ) (t : ToothFile)
    (world : σ)
    (hmkdir : ∀ path dir w, sys.stat path w = true → sys.stat path (sys.mkdirAll dir w) = true)
    (hcreate : ∀ path dest w, sys.stat path w = true →
      sys.stat path (sys.create dest w).2 = true)
    (hcopy : ∀ path dest data w, sys.stat path w = true →
      sys.stat path (sys.copy dest data w) = true) :
    ((toothfile.Install sys t world).2.ops = [] →
      (toothfile.Install sys t world).1 ≠ none ∧
      (toothfile.Install sys t world).2.world = world) ∧
    ((toothfile.Install sys t world).2.ops ≠ [] →
      ∃ recordDir metadataJSON rest,
        sys.RecordDir world = .ok recordDir ∧
        sys.metadataJSON t.metadata = .ok metadataJSON ∧
        sys.stat (recordDir ++ "/" ++ sys.GetRecordFileName t.metadata.toothPath) world =
          false ∧
        (toothfile.Install sys t world).2.ops =
          .writeFile (recordDir ++ "/" ++ sys.GetRecordFileName t.metadata.toothPath)
            metadataJSON :: rest ∧
        (sys.stat (recordDir ++ "/" ++ sys.GetRecordFileName t.metadata.toothPath)
            (sys.writeFile (recordDir ++ "/" ++ sys.GetRecordFileName t.metadata.toothPath)
              metadataJSON world) = true →
          sys.stat (recordDir ++ "/" ++ sys.GetRecordFileName t.metadata.toothPath)
            (toothfile.Install sys t world).2.world = true)) ∧
    ((toothfile.Install sys t world).1 = none →
      (toothfile.Install sys t world).2.ops ≠ []) := by
  unfold toothfile.Install
  split
  · simp
  · rename_i recordDir hdir
    dsimp only
    split
    · simp
    · rename_i hstat
      split
      · simp
      · rename_i metadataJSON hjson
        split
        · refine ⟨by simp, fun _ => ?_, by simp⟩
          exact ⟨recordDir, metadataJSON, [], hdir, hjson, by simpa using hstat, rfl,
            fun hw => hw⟩
        · rename_i workSpaceDir hws
          split
          · refine ⟨by simp, fun _ => ?_, by simp⟩
            exact ⟨recordDir, metadataJSON, [], hdir, hjson, by simpa using hstat, rfl,
              fun hw => hw⟩
          · rename_i files hzip
            obtain ⟨h1, ext, h2⟩ := toothfile.placeAll_keeps sys t.filePath workSpaceDir files
              t.metadata.placement
              { world := sys.writeFile
                  (recordDir ++ "/" ++ sys.GetRecordFileName t.metadata.toothPath)
                  metadataJSON world,
                ops := [.writeFile
                  (recordDir ++ "/" ++ sys.GetRecordFileName t.metadata.toothPath)
                  metadataJSON] }
              (recordDir ++ "/" ++ sys.GetRecordFileName t.metadata.toothPath)
              (hmkdir _) (hcreate _) (hcopy _)
            refine ⟨?_, fun _ => ?_, ?_⟩
            · intro h
              rw [h2] at h
              simp at h
            · exact ⟨recordDir, metadataJSON, ext, hdir, hjson, by simpa using hstat,
                by simpa using h2, h1⟩
            · intro _ h
              rw [h2] at h
              simp at h

namespace simfs

theorem lookup_filter_other (path dest : String) (h : path ≠ dest)
    (files : List (String × List Nat)) :
    (files.filter (fun entry => !decide (entry.1 = dest))).lookup path = files.lookup path := by
  induction files with
  | nil => rfl
  | cons entry rest ih =>
    obtain ⟨k, v⟩ := entry
    by_cases hk : k = dest
    · subst hk
      have h2 : (path == k) = false := by simpa using h
      simp [List.filter, List.lookup, h2, ih]
    · by_cases hp : path = k
      · subst hp
        simp [List.filter, List.lookup, hk]
      · have h2 : (path == k) = false := by simpa using hp
        simp [List.filter, List.lookup, hk, h2, ih]

/-- Replacing a file deletes no file and no directory. -/
theorem stat_put_keeps (archives : List (String × List toothfile.ZipFile)) (path dest : String)
    (data : List Nat) (fs : FS) (h : (sys archives).stat path fs = true) :
    (sys archives).stat path (fs.put dest data) = true := by
  by_cases hp : path = dest
  · subst hp
    simp [sys, FS.put, FS.isFile, List.lookup]
  · have h2 : (path == dest) = false := by simpa using hp
    simp only [sys, FS.put, FS.isFile, FS.isDir, List.lookup, h2] at h ⊢
    rw [lookup_filter_other path dest hp]
    exact h

theorem stat_mkdirAll_keeps (archives : List (String × List toothfile.ZipFile))
    (path dir : String) (fs : FS) (h : (sys archives).stat path fs = true) :
    (sys archives).stat path ((sys archives).mkdirAll dir fs) = true := by
  simp only [sys] at h ⊢
  split
  · exact h
  · simp only [FS.isFile, FS.isDir, Bool.or_eq_true, decide_eq_true_eq,
      List.mem_append] at h ⊢
    rcases h with h | h
    · exact Or.inl h
    · exact Or.inr (Or.inl h)

theorem stat_create_keeps (archives : List (String × List toothfile.ZipFile))
    (path dest : String) (fs : FS) (h : (sys archives).stat path fs = true) :
    (sys archives).stat path ((sys archives).create dest fs).2 = true := by
  have h2 := stat_put_keeps archives path dest [] fs h
  simp only [sys] at h h2 ⊢
  split
  · exact h2
  · exact h

theorem stat_copy_keeps (archives : List (String × List toothfile.ZipFile))
    (path dest : String) (data : List Nat) (fs : FS) (h : (sys archives).stat path fs = true) :
    (sys archives).stat path ((sys archives).copy dest data fs) = true := by
  have h2 := stat_put_keeps archives path dest data fs h
  simp only [sys] at h h2 ⊢
  split
  · exact h2
  · exact h

end simfs

/-- C7, amended, at a concrete input: the record directory exists, `os.Create`
fails on the directory `ws/plugins`; the first write call was the record write
and, that write having created `records/a.json`, the file exists when
`Install` returns its error. -/
theorem install_record_written_first_witness :
    ∃ recordDir metadataJSON rest,
      (simfs.sys simfs.archivesA).RecordDir simfs.workspaceFS = .ok recordDir ∧
      (simfs.sys simfs.archivesA).metadataJSON (simfs.toothA [⟨"a.dll", "plugins"⟩]).metadata =
        .ok metadataJSON ∧
      (simfs.sys simfs.archivesA).stat
        (recordDir ++ "/" ++ (simfs.sys simfs.archivesA).GetRecordFileName
          (simfs.toothA [⟨"a.dll", "plugins"⟩]).metadata.toothPath)
        simfs.workspaceFS = false ∧
      (toothfile.Install (simfs.sys simfs.archivesA) (simfs.toothA [⟨"a.dll", "plugins"⟩])
          simfs.workspaceFS).2.ops =
        .writeFile (recordDir ++ "/" ++ (simfs.sys simfs.archivesA).GetRecordFileName
          (simfs.toothA [⟨"a.dll", "plugins"⟩]).metadata.toothPath) metadataJSON :: rest ∧
      ((simfs.sys simfs.archivesA).stat
          (recordDir ++ "/" ++ (simfs.sys simfs.archivesA).GetRecordFileName
            (simfs.toothA [⟨"a.dll", "plugins"⟩]).metadata.toothPath)
          ((simfs.sys simfs.archivesA).writeFile
            (recordDir ++ "/" ++ (simfs.sys simfs.archivesA).GetRecordFileName
              (simfs.toothA [⟨"a.dll", "plugins"⟩]).metadata.toothPath)
            metadataJSON simfs.workspaceFS) = true →
        (simfs.sys simfs.archivesA).stat
          (recordDir ++ "/" ++ (simfs.sys simfs.archivesA).GetRecordFileName
            (simfs.toothA [⟨"a.dll", "plugins"⟩]).metadata.toothPath)
          (toothfile.Install (simfs.sys simfs.archivesA) (simfs.toothA [⟨"a.dll", "plugins"⟩])
            simfs.workspaceFS).2.world = true) :=
  (install_record_written_first (simfs.sys simfs.archivesA)
    (simfs.toothA [⟨"a.dll", "plugins"⟩]) simfs.workspaceFS
    (fun path dir w h => simfs.stat_mkdirAll_keeps simfs.archivesA path dir w h)
    (fun path dest w h => simfs.stat_create_keeps simfs.archivesA path dest w h)
    (fun path dest data w h => simfs.stat_copy_keeps simfs.archivesA path dest data w h)).2.1
    (by decide)

/-! ### Lemmas on steps 3 and 4 -/

namespace cmdlipinstall

theorem lookup_append_of_isSome (k : String) (d e : List (String × String))
    (h : (d.lookup k).isSome = true) : (d ++ e).lookup k = d.lookup k := by
  induction d with
  | nil => simp at h
  | cons entry rest ih =>
    obtain ⟨k2, v⟩ := entry
    by_cases hk : k = k2
    · subst hk
      simp [List.lookup]
    · have h2 : (k == k2) = false := by simpa using hk
      simp only [List.cons_append, List.lookup, h2] at h ⊢
      exact ih h

theorem lookup_append_new (k v : String) (d : List (String × String))
    (h : ¬ (d.lookup k).isSome = true) : (d ++ [(k, v)]).lookup k = some v := by
  induction d with
  | nil => simp [List.lookup]
  | cons entry rest ih =>
    obtain ⟨k2, v2⟩ := entry
    by_cases hk : k = k2
    · subst hk
      simp [List.lookup] at h
    · have h2 : (k == k2) = false := by simpa using hk
      simp only [List.cons_append, List.lookup, h2] at h ⊢
      exact ih h

theorem lookup_mem (k v : String) (d : List (String × String)) (h : d.lookup k = some v) :
    (k, v) ∈ d := by
  induction d with
  | nil => simp at h
  | cons entry rest ih =>
    obtain ⟨k2, v2⟩ := entry
    by_cases hk : k = k2
    · subst hk
      simp only [List.lookup, beq_self_eq_true, Option.some.injEq] at h
      subst h
      exact List.mem_cons_self _ _
    · have h2 : (k == k2) = false := by simpa using hk
      simp only [List.lookup, h2] at h
      exact List.mem_cons_of_mem _ (ih h)

theorem expandDependencies_queue {σ : Type} (env : Env σ) (specifier : Specifier)
    (deps : List (String × VersionRange)) (queue queue2 : List Specifier) (s s2 : State σ)
    (h : expandDependencies env specifier deps queue s = .next queue2 s2) :
    ∀ sp ∈ queue, sp ∈ queue2 := by
  induction deps generalizing queue with
  | nil =>
    simp only [expandDependencies, Step.next.injEq] at h
    intro sp hsp
    rw [← h.1]
    exact hsp
  | cons dep rest ih =>
    obtain ⟨toothPath, versionRange⟩ := dep
    simp only [expandDependencies] at h
    split at h
    · cases h
    · split at h
      · cases h
      · split at h
        · cases h
        · intro sp hsp
          exact ih _ h sp (List.mem_append_left _ hsp)

/-- When the fetch loop runs to its end, every specifier that was in the queue
is a key of `downloadedToothFiles`, and keys present at the start keep their
value. -/
theorem resolve_done_keys {σ : Type} (env : Env σ) (fuel : Nat) (queue : List Specifier)
    (d d2 : List (String × String)) (s s2 : State σ)
    (h : resolve env fuel queue d s = .done d2 s2) :
    (∀ sp ∈ queue, (d2.lookup sp.string).isSome = true) ∧
    (∀ k, (d.lookup k).isSome = true → d2.lookup k = d.lookup k) := by
  induction fuel generalizing queue d s with
  | zero =>
    cases queue with
    | nil =>
      simp only [resolve, Resolved.done.injEq] at h
      obtain ⟨h1, _⟩ := h
      subst h1
      exact ⟨by simp, fun _ _ => rfl⟩
    | cons specifier rest => simp [resolve] at h
  | succ fuel ih =>
    cases queue with
    | nil =>
      simp only [resolve, Resolved.done.injEq] at h
      obtain ⟨h1, _⟩ := h
      subst h1
      exact ⟨by simp, fun _ _ => rfl⟩
    | cons specifier rest =>
      simp only [resolve] at h
      split at h
      · rename_i hlook
        obtain ⟨h1, h2⟩ := ih _ _ _ h
        refine ⟨?_, h2⟩
        intro sp hsp
        rcases List.mem_cons.mp hsp with hsp | hsp
        · subst hsp
          rw [h2 _ hlook]
          exact hlook
        · exact h1 sp hsp
      · rename_i hlook
        split at h
        · cases h
        · split at h
          · cases h
          · split at h
            · split at h <;> cases h
            · split at h
              · cases h
              · rename_i path world _ _ _ _ _ _ queue2 s3 hexp
                obtain ⟨h1, h2⟩ := ih _ _ _ h
                have hq := expandDependencies_queue env _ _ _ _ _ _ hexp
                have hnew := lookup_append_new specifier.string path d hlook
                refine ⟨?_, ?_⟩
                · intro sp hsp
                  rcases List.mem_cons.mp hsp with hsp | hsp
                  · subst hsp
                    rw [h2 _ (by rw [hnew]; rfl), hnew]
                    rfl
                  · exact h1 sp (hq sp hsp)
                · intro k hk
                  have hk2 := lookup_append_of_isSome k d [(specifier.string, path)] hk
                  rw [h2 k (by rw [hk2]; exact hk), hk2]

/-- One iteration of step 3 that goes on either leaves the world as it is and
adds at most an error line, or it made one successful `Uninstall` for the
tooth file it opened. -/
theorem upgradeOne_next {σ : Type} (env : Env σ) (flagDict : FlagDict)
    (d : List (String × String)) (specifier : Specifier) (s s1 : State σ)
    (h : upgradeOne env flagDict d specifier s = .next () s1) :
    (s1.world = s.world ∧ (s1.trace = s.trace ∨ ∃ message, s1.trace =
      s.trace ++ [.logError message])) ∨
    (∃ toothFile w,
      env.toothfileNew ((d.lookup specifier.string).getD "") s.world = .ok toothFile ∧
      env.Uninstall (env.GetRecordFileName toothFile.metadata.toothPath)
        toothFile.metadata.possession s.world = (none, w) ∧
      s1 = { world := w, trace := s.trace ++
        [.uninstall (env.GetRecordFileName toothFile.metadata.toothPath)
          toothFile.metadata.possession] }) := by
  unfold upgradeOne at h
  split at h
  · simp only [Step.next.injEq, true_and] at h
    subst h
    exact Or.inl ⟨rfl, Or.inr ⟨_, rfl⟩⟩
  · split at h
    · cases h
    · rename_i toothFile hopen
      split at h
      · cases h
      · simp only [Step.next.injEq, true_and] at h
        subst h
        exact Or.inl ⟨rfl, Or.inl rfl⟩
      · split at h
        · cases h
        · dsimp only at h
          split at h
          · cases h
          · split at h
            · simp only [Step.next.injEq, true_and] at h
              subst h
              exact Or.inl ⟨rfl, Or.inl rfl⟩
            · split at h
              · cases h
              · rename_i w hun
                simp only [Step.next.injEq, true_and] at h
                exact Or.inr ⟨toothFile, w, hopen, hun, h.symm⟩

/-- Step 3 keeps a tooth path not installed and a downloaded tooth file
readable. -/
theorem upgradeLoop_keeps {σ : Type} (env : Env σ) (laws : RecordStoreLaws env)
    (flagDict : FlagDict) (d : List (String × String)) (specifierList : List Specifier)
    (s s3 : State σ) (toothPath filePath : String) (toothFile : ToothFile)
    (h : upgradeLoop env flagDict d specifierList s = .next () s3)
    (h1 : env.IsToothInstalled toothPath s.world = .ok false)
    (h2 : env.toothfileNew filePath s.world = .ok toothFile) :
    env.IsToothInstalled toothPath s3.world = .ok false ∧
    env.toothfileNew filePath s3.world = .ok toothFile := by
  induction specifierList generalizing s with
  | nil =>
    simp only [upgradeLoop, Step.next.injEq, true_and] at h
    subst h
    exact ⟨h1, h2⟩
  | cons specifier rest ih =>
    simp only [upgradeLoop] at h
    split at h
    · cases h
    · rename_i u s1 hone
      rcases upgradeOne_next env flagDict d specifier s s1 hone with ⟨hw, _⟩ | ⟨tf, w, _, hun, hs1⟩
      · exact ih s1 h (by rw [hw]; exact h1) (by rw [hw]; exact h2)
      · subst hs1
        have e1 := laws.uninstall_keeps (env.GetRecordFileName tf.metadata.toothPath)
          tf.metadata.possession s.world toothPath h1
        have e2 := laws.toothfileNew_stable filePath
          (env.GetRecordFileName tf.metadata.toothPath) tf.metadata.possession s.world
        rw [hun] at e1 e2
        exact ih _ h e1 (by rw [e2]; exact h2)

/-- Every `Uninstall` that step 3 adds to the trace was made for the tooth file
of a root specifier; when step 3 is over that tooth path is not installed and
the tooth file still opens. -/
theorem upgradeLoop_uninstall {σ : Type} (env : Env σ) (laws : RecordStoreLaws env)
    (flagDict : FlagDict) (d : List (String × String)) (specifierList : List Specifier)
    (s s3 : State σ) (name : String) (possession : List String)
    (h : upgradeLoop env flagDict d specifierList s = .next () s3)
    (hmem : Event.uninstall name possession ∈ s3.trace) :
    Event.uninstall name possession ∈ s.trace ∨
    ∃ specifier ∈ specifierList, ∃ toothFile,
      name = env.GetRecordFileName toothFile.metadata.toothPath ∧
      env.toothfileNew ((d.lookup specifier.string).getD "") s3.world = .ok toothFile ∧
      env.IsToothInstalled toothFile.metadata.toothPath s3.world = .ok false := by
  induction specifierList generalizing s with
  | nil =>
    simp only [upgradeLoop, Step.next.injEq, true_and] at h
    subst h
    exact Or.inl hmem
  | cons specifier rest ih =>
    simp only [upgradeLoop] at h
    split at h
    · cases h
    · rename_i u s1 hone
      rcases ih s1 h with hin | ⟨sp, hsp, tf, h1, h2, h3⟩
      · rcases upgradeOne_next env flagDict d specifier s s1 hone with
          ⟨_, ht⟩ | ⟨tf, w, hopen, hun, hs1⟩
        · rcases ht with ht | ⟨message, ht⟩
          · rw [ht] at hin
            exact Or.inl hin
          · rw [ht] at hin
            simp only [List.mem_append, List.mem_singleton] at hin
            rcases hin with hin | hin
            · exact Or.inl hin
            · cases hin
        · subst hs1
          simp only [List.mem_append, List.mem_singleton, Event.uninstall.injEq] at hin
          rcases hin with hin | ⟨hn, _⟩
          · exact Or.inl hin
          · right
            have e1 := laws.uninstall_clears tf.metadata.toothPath tf.metadata.possession
              s.world w hun
            have e2 := laws.toothfileNew_stable ((d.lookup specifier.string).getD "")
              (env.GetRecordFileName tf.metadata.toothPath) tf.metadata.possession s.world
            rw [hun] at e2
            obtain ⟨k1, k2⟩ := upgradeLoop_keeps env laws flagDict d rest _ s3
              tf.metadata.toothPath ((d.lookup specifier.string).getD "") tf h e1
              (by rw [e2]; exact hopen)
            exact ⟨specifier, List.mem_cons_self _ _, tf, hn, k2, k1⟩
      · exact Or.inr ⟨sp, List.mem_cons_of_mem _ hsp, tf, h1, h2, h3⟩

/-- The list built from the downloaded tooth files holds every tooth file that
opens. -/
theorem openDownloaded_mem {σ : Type} (env : Env σ) (entries : List (String × String))
    (acc list : List ToothFile) (s s1 : State σ)
    (h : openDownloaded env entries acc s = .next list s1) :
    (∀ toothFile ∈ acc, toothFile ∈ list) ∧
    (∀ entry ∈ entries, ∀ toothFile, env.toothfileNew entry.2 s.world = .ok toothFile →
      toothFile ∈ list) := by
  induction entries generalizing acc with
  | nil =>
    simp only [openDownloaded, Step.next.injEq] at h
    obtain ⟨h1, _⟩ := h
    subst h1
    exact ⟨fun _ ht => ht, by simp⟩
  | cons entry rest ih =>
    obtain ⟨k, path⟩ := entry
    simp only [openDownloaded] at h
    split at h
    · cases h
    · rename_i tf hopen
      obtain ⟨h1, h2⟩ := ih _ h
      refine ⟨fun t ht => h1 t (List.mem_append_left _ ht), ?_⟩
      intro entry hentry toothFile ht
      rcases List.mem_cons.mp hentry with hentry | hentry
      · subst hentry
        dsimp only at ht
        rw [hopen] at ht
        cases ht
        exact h1 _ (by simp)
      · exact h2 entry hentry toothFile ht

/-- When the install loop runs to its end it has called `Install` for the tooth
path of every listed tooth file that was not installed at the start; the
events it adds contain no `Uninstall`. -/
theorem installLoop_installs {σ : Type} (env : Env σ) (laws : RecordStoreLaws env)
    (flagDict : FlagDict) (list : List ToothFile) (s s1 : State σ)
    (h : installLoop env flagDict list s = .next () s1) :
    ∃ ext, s1.trace = s.trace ++ ext ∧
      (∀ name possession, Event.uninstall name possession ∉ ext) ∧
      (∀ toothFile ∈ list,
        env.IsToothInstalled toothFile.metadata.toothPath s.world = .ok false →
        ∃ installed m y, Event.install installed m y ∈ ext ∧
          installed.metadata.toothPath = toothFile.metadata.toothPath) := by
  induction list generalizing s with
  | nil =>
    simp only [installLoop, Step.next.injEq, true_and] at h
    subst h
    exact ⟨[], by simp, by simp, by simp⟩
  | cons head rest ih =>
    simp only [installLoop] at h
    split at h
    · cases h
    · rename_i u s2 hone
      obtain ⟨ext, ht, hno, hall⟩ := ih s2 h
      unfold installOne at hone
      split at hone
      · cases hone
      · rename_i hinst
        simp only [Step.next.injEq, true_and] at hone
        subst hone
        refine ⟨ext, ht, hno, ?_⟩
        intro toothFile hmem hnot
        rcases List.mem_cons.mp hmem with hmem | hmem
        · subst hmem
          rw [hinst] at hnot
          cases hnot
        · exact hall toothFile hmem hnot
      · rename_i hinst
        dsimp only at hone
        split at hone
        · cases hone
        · rename_i w hin
          simp only [Step.next.injEq, true_and] at hone
          subst hone
          refine ⟨[.install head false flagDict.yesFlag] ++ ext, ?_, ?_, ?_⟩
          · rw [ht]
            simp
          · intro name possession hmem
            simp only [List.singleton_append, List.mem_cons] at hmem
            rcases hmem with hmem | hmem
            · cases hmem
            · exact hno name possession hmem
          · intro toothFile hmem hnot
            by_cases hp : head.metadata.toothPath = toothFile.metadata.toothPath
            · exact ⟨head, false, flagDict.yesFlag, by simp, hp⟩
            · have hrest : toothFile ∈ rest := by
                rcases List.mem_cons.mp hmem with hmem | hmem
                · subst hmem
                  exact absurd rfl hp
                · exact hmem
              have e1 := laws.install_keeps head false flagDict.yesFlag s.world
                toothFile.metadata.toothPath hp hnot
              rw [hin] at e1
              obtain ⟨installed, m, y, hi, hpath⟩ := hall toothFile hrest e1
              exact ⟨installed, m, y, by simp [hi], hpath⟩

theorem runSteps_finished {σ : Type} (env : Env σ) (fuel : Nat) (flagDict : FlagDict)
    (specifierList : List Specifier) (s sfin : State σ)
    (h : runSteps env fuel flagDict specifierList s = (.finished, sfin)) :
    ∃ d s2 s3, resolve env fuel specifierList [] s = .done d s2 ∧
      upgradeStep env flagDict d specifierList s2 = .next () s3 ∧
      installStep env flagDict d s3 = .next () sfin := by
  unfold runSteps at h
  split at h
  · cases h
  · cases h
  · rename_i d s2 hres
    unfold applySteps at h
    split at h
    · cases h
    · rename_i u s3 hup
      split at h
      · cases h
      · rename_i u2 s4 hin
        simp only [Prod.mk.injEq, true_and] at h
        subst h
        exact ⟨d, s2, s3, hres, hup, hin⟩

theorem Run_finished {σ : Type} (env : Env σ) (fuel : Nat) (args : List String) (world : σ)
    (sfin : State σ) (h : Run env fuel args world = (.finished, sfin)) :
    ∃ flagDict specifierList,
      runSteps env fuel flagDict specifierList { world := world, trace := [] } =
        (.finished, sfin) := by
  unfold Run at h
  split at h
  · cases h
  · split at h
    · cases h
    · cases h
    · unfold runParsed at h
      dsimp only at h
      split at h
      · cases h
      · split at h
        · cases h
        · split at h
          · cases h
          · exact ⟨_, _, h⟩

/-- Steps 2 to 4, run to their end from a trace without `Uninstall`: every
`Uninstall` of the run is followed by an `Install` for the same record file
name. -/
theorem runSteps_replaces {σ : Type} (env : Env σ) (laws : RecordStoreLaws env) (fuel : Nat)
    (flagDict : FlagDict) (specifierList : List Specifier) (s sfin : State σ)
    (hs : ∀ e ∈ s.trace, e.isChange = false)
    (h : runSteps env fuel flagDict specifierList s = (.finished, sfin))
    (name : String) (possession : List String)
    (hun : Event.uninstall name possession ∈ sfin.trace) :
    ∃ before after installed m y, sfin.trace = before ++ after ∧
      Event.uninstall name possession ∈ before ∧
      Event.install installed m y ∈ after ∧
      env.GetRecordFileName installed.metadata.toothPath = name := by
  obtain ⟨d, s2, s3, hres, hup, hin⟩ := runSteps_finished env fuel flagDict specifierList s sfin h
  -- step 4
  unfold installStep at hin
  split at hin
  · cases hin
  · rename_i list s3b hopen
    have hs3b := openDownloaded_next env _ _ _ _ _ hopen
    subst hs3b
    split at hin
    · cases hin
    · rename_i sorted hsort
      obtain ⟨ext, htrace, hno, hall⟩ := installLoop_installs env laws flagDict sorted _ sfin hin
      have hun3 : Event.uninstall name possession ∈ s3b.trace := by
        rw [htrace] at hun
        rcases List.mem_append.mp hun with hun | hun
        · exact hun
        · exact absurd hun (hno name possession)
      -- the fetch loop made no `Uninstall`
      have hnot2 : Event.uninstall name possession ∉ s2.trace := by
        intro hmem
        have h1 := resolve_no_change env fuel specifierList [] s
        rw [hres] at h1
        have h2 := hs _ (h1 _ hmem rfl)
        simp [Event.isChange] at h2
      -- step 3
      unfold upgradeStep at hup
      split at hup
      · rcases upgradeLoop_uninstall env laws flagDict d specifierList s2 s3b name possession
          hup hun3 with hmem | ⟨specifier, hsp, toothFile, hname, hopen3, hnot⟩
        · exact absurd hmem hnot2
        · obtain ⟨hkeys, _⟩ := resolve_done_keys env fuel specifierList [] d s s2 hres
          have hsome := hkeys specifier hsp
          obtain ⟨path, hpath⟩ := Option.isSome_iff_exists.mp hsome
          rw [hpath, Option.getD_some] at hopen3
          have hentry := laws.rangeOrder_mem d _ (lookup_mem _ _ _ hpath)
          obtain ⟨_, hlist⟩ := openDownloaded_mem env _ _ _ _ _ hopen
          have hinlist := hlist _ hentry toothFile hopen3
          have hsorted := laws.sort_mem _ _ hsort toothFile hinlist
          obtain ⟨installed, m, y, hi, hp⟩ := hall toothFile hsorted hnot
          exact ⟨s3b.trace, ext, installed, m, y, htrace, hun3, hi, by rw [hp, hname]⟩
      · simp only [Step.next.injEq, true_and] at hup
        subst hup
        exact absurd hun3 hnot2

end cmdlipinstall

namespace sim

/-- The simulated collaborators behave as a record store. -/
theorem env_laws (repo : Repo) : cmdlipinstall.RecordStoreLaws (env repo) where
  uninstall_clears := by
    intro toothPath possession w w2 h
    simp only [env, Prod.mk.injEq, true_and] at h
    subst h
    simp only [env, Except.ok.injEq, List.any_eq_false, List.mem_filter, decide_eq_true_eq,
      Bool.not_eq_true', decide_eq_false_iff_not, and_imp]
    intro r _ hr hp
    exact hr (by rw [hp])
  uninstall_keeps := by
    intro name possession w toothPath h
    simp only [env, Except.ok.injEq, List.any_eq_false, decide_eq_true_eq] at h
    simp only [env, Except.ok.injEq, List.any_eq_false, List.mem_filter, decide_eq_true_eq,
      and_imp]
    intro r hr _
    exact h r hr
  install_keeps := by
    intro toothFile m y w toothPath hne h
    simp only [env, Except.ok.injEq, List.any_eq_false, decide_eq_true_eq] at h
    simp only [env, Except.ok.injEq, List.any_eq_false, List.mem_append, List.mem_singleton,
      decide_eq_true_eq]
    intro r hr
    rcases hr with hr | hr
    · exact h r hr
    · subst hr
      exact hne
  toothfileNew_stable := by
    intro path name possession w
    rfl
  rangeOrder_mem := by
    intro d entry h
    exact h
  sort_mem := by
    intro list sorted h toothFile hmem
    simp only [env, Except.ok.injEq] at h
    subst h
    exact hmem

end sim

open cmdlipinstall in
/-- C3, as stated, fails: with `a` and `b` installed,
`Run --force-reinstall a@1.0.0 b@1.0.0` uninstalls both teeth in step 3; in
step 4 `Install` of `a` fails and `Run` returns: `Install` is never called for
`b`, which stays uninstalled. -/
theorem uninstall_without_install :
    (Run (sim.envInstallFails sim.repoTwo ["a"]) 10 ["--force-reinstall", "a@1.0.0", "b@1.0.0"]
      sim.worldAB).1 = .aborted ∧
    (Run (sim.envInstallFails sim.repoTwo ["a"]) 10 ["--force-reinstall", "a@1.0.0", "b@1.0.0"]
      sim.worldAB).2.trace.filter Event.isChange =
      [.uninstall "a.json" ["a.dll"], .uninstall "b.json" ["b.dll"],
       .install (sim.tooth "cache/a" "a" sim.v100 [] ["a.dll"]) false false] ∧
    (sim.envInstallFails sim.repoTwo ["a"]).IsToothInstalled "b"
      (Run (sim.envInstallFails sim.repoTwo ["a"]) 10
        ["--force-reinstall", "a@1.0.0", "b@1.0.0"] sim.worldAB).2.world = .ok false := by
  refine ⟨by decide, by decide, rfl⟩

open cmdlipinstall in
/-- C3, amended: in a run of `Run` that reaches its end, every call of
`Uninstall` made in step 3 is followed, later in the trace, by a call of
`Install` for a tooth file whose record file name is the one uninstalled,
when the collaborators behave as a record store (`RecordStoreLaws`). -/
theorem uninstall_followed_by_install {σ : Type} (env : Env σ) (laws : RecordStoreLaws env)
    (fuel : Nat) (args : List String) (world : σ) (sfin : State σ)
    (hrun : Run env fuel args world = (.finished, sfin))
    (name : String) (possession : List String)
    (hun : Event.uninstall name possession ∈ sfin.trace) :
    ∃ before after installed m y, sfin.trace = before ++ after ∧
      Event.uninstall name possession ∈ before ∧
      Event.install installed m y ∈ after ∧
      env.GetRecordFileName installed.metadata.toothPath = name := by
  obtain ⟨flagDict, specifierList, h⟩ := Run_finished env fuel args world sfin hrun
  exact runSteps_replaces env laws fuel flagDict specifierList _ sfin (by simp) h name
    possession hun

open cmdlipinstall in
/-- C3, amended, at a concrete input: `a` 1.0.0 is installed and
`Run --upgrade a@2.0.0` runs to its end; the `Uninstall` of `a.json` is
followed by an `Install` for `a`. -/
theorem uninstall_followed_by_install_witness :
    ∃ before after installed m y,
      (Run (sim.env sim.repoTwo) 10 ["--upgrade", "a@2.0.0"] sim.worldAB).2.trace =
        before ++ after ∧
      Event.uninstall "a.json" ["a2.dll"] ∈ before ∧
      Event.install installed m y ∈ after ∧
      (sim.env sim.repoTwo).GetRecordFileName installed.metadata.toothPath = "a.json" :=
  uninstall_followed_by_install (sim.env sim.repoTwo) (sim.env_laws sim.repoTwo) 10
    ["--upgrade", "a@2.0.0"] sim.worldAB
    (Run (sim.env sim.repoTwo) 10 ["--upgrade", "a@2.0.0"] sim.worldAB).2
    (Prod.ext (by decide) rfl) "a.json" ["a2.dll"] (by decide)

/-! ### An installed tooth path through steps 3 and 4 -/

namespace cmdlipinstall

/-- One iteration of step 3 adds no `Install`, and keeps a tooth path installed
unless it calls `Uninstall` on its record file. -/
theorem upgradeOne_ext {σ : Type} (env : Env σ) (laws : KeepsInstalled env)
    (flagDict : FlagDict) (d : List (String × String)) (specifier : Specifier) (s : State σ)
    (toothPath : String) :
    ∃ ext, (upgradeOne env flagDict d specifier s).state.trace = s.trace ++ ext ∧
      (∀ toothFile m y, Event.install toothFile m y ∉ ext) ∧
      (env.IsToothInstalled toothPath s.world = .ok true →
        (∀ possession, Event.uninstall (env.GetRecordFileName toothPath) possession ∉ ext) →
        env.IsToothInstalled toothPath (upgradeOne env flagDict d specifier s).state.world =
          .ok true) := by
  have hlog : ∀ message : String, ∃ ext, (s.emit [.logError message]).trace = s.trace ++ ext ∧
      (∀ toothFile m y, Event.install toothFile m y ∉ ext) ∧
      (env.IsToothInstalled toothPath s.world = .ok true →
        (∀ possession, Event.uninstall (env.GetRecordFileName toothPath) possession ∉ ext) →
        env.IsToothInstalled toothPath (s.emit [.logError message]).world = .ok true) :=
    fun message => ⟨[.logError message], rfl, by simp, fun hinst _ => hinst⟩
  have hsame : ∃ ext, s.trace = s.trace ++ ext ∧
      (∀ toothFile m y, Event.install toothFile m y ∉ ext) ∧
      (env.IsToothInstalled toothPath s.world = .ok true →
        (∀ possession, Event.uninstall (env.GetRecordFileName toothPath) possession ∉ ext) →
        env.IsToothInstalled toothPath s.world = .ok true) :=
    ⟨[], by simp, by simp, fun hinst _ => hinst⟩
  unfold upgradeOne
  split
  · exact hlog _
  · split
    · exact hlog _
    · rename_i toothFile hopen
      split
      · exact hlog _
      · exact hsame
      · split
        · exact hlog _
        · dsimp only
          split
          · exact hlog _
          · split
            · exact hsame
            · have hkeep := laws.uninstall_other
                (env.GetRecordFileName toothFile.metadata.toothPath)
                toothFile.metadata.possession s.world toothPath
              split
              · rename_i e w hun
                rw [hun] at hkeep
                refine ⟨[.uninstall (env.GetRecordFileName toothFile.metadata.toothPath)
                  toothFile.metadata.possession, .logError e], rfl, by simp, ?_⟩
                intro hinst hno
                refine hkeep ?_ hinst
                intro hname
                exact hno toothFile.metadata.possession (by rw [← hname]; simp)
              · rename_i w hun
                rw [hun] at hkeep
                refine ⟨[.uninstall (env.GetRecordFileName toothFile.metadata.toothPath)
                  toothFile.metadata.possession], rfl, by simp, ?_⟩
                intro hinst hno
                refine hkeep ?_ hinst
                intro hname
                exact hno toothFile.metadata.possession (by rw [← hname]; simp)

theorem upgradeLoop_ext {σ : Type} (env : Env σ) (laws : KeepsInstalled env)
    (flagDict : FlagDict) (d : List (String × String)) (specifierList : List Specifier)
    (s : State σ) (toothPath : String) :
    ∃ ext, (upgradeLoop env flagDict d specifierList s).state.trace = s.trace ++ ext ∧
      (∀ toothFile m y, Event.install toothFile m y ∉ ext) ∧
      (env.IsToothInstalled toothPath s.world = .ok true →
        (∀ possession, Event.uninstall (env.GetRecordFileName toothPath) possession ∉ ext) →
        env.IsToothInstalled toothPath (upgradeLoop env flagDict d specifierList s).state.world =
          .ok true) := by
  induction specifierList generalizing s with
  | nil => exact ⟨[], by simp [upgradeLoop, Step.state], by simp, fun hinst _ => hinst⟩
  | cons specifier rest ih =>
    obtain ⟨ext, h1, h2, h3⟩ := upgradeOne_ext env laws flagDict d specifier s toothPath
    simp only [upgradeLoop]
    cases hone : upgradeOne env flagDict d specifier s with
    | stop s1 =>
      rw [hone] at h1 h3
      exact ⟨ext, h1, h2, h3⟩
    | next u s1 =>
      rw [hone] at h1 h3
      simp only [Step.state] at h1 h3
      dsimp only
      obtain ⟨ext2, k1, k2, k3⟩ := ih s1
      refine ⟨ext ++ ext2, by rw [k1, h1, List.append_assoc], ?_, ?_⟩
      · intro toothFile m y hmem
        rcases List.mem_append.mp hmem with hmem | hmem
        · exact h2 _ _ _ hmem
        · exact k2 _ _ _ hmem
      · intro hinst hno
        exact k3
          (h3 hinst (fun possession hmem => hno possession (List.mem_append_left _ hmem)))
          (fun possession hmem => hno possession (List.mem_append_right _ hmem))

/-- One iteration of step 4 adds no `Uninstall`; it calls `Install` only for a
tooth path that is not installed, and keeps an installed tooth path
installed. -/
theorem installOne_ext {σ : Type} (env : Env σ) (laws : KeepsInstalled env)
    (flagDict : FlagDict) (toothFile : ToothFile) (s : State σ) (toothPath : String) :
    ∃ ext, (installOne env flagDict toothFile s).state.trace = s.trace ++ ext ∧
      (∀ name possession, Event.uninstall name possession ∉ ext) ∧
      (env.IsToothInstalled toothPath s.world = .ok true →
        (∀ installed m y, Event.install installed m y ∈ ext →
          installed.metadata.toothPath ≠ toothPath) ∧
        env.IsToothInstalled toothPath (installOne env flagDict toothFile s).state.world =
          .ok true) := by
  unfold installOne
  split
  · exact ⟨[.logError _], rfl, by simp, fun hinst => ⟨by simp, hinst⟩⟩
  · exact ⟨[], by simp [Step.state], by simp, fun hinst => ⟨by simp, hinst⟩⟩
  · rename_i hnot
    have hne : env.IsToothInstalled toothPath s.world = .ok true →
        toothFile.metadata.toothPath ≠ toothPath := by
      intro hinst heq
      rw [heq, hinst] at hnot
      cases hnot
    have hkeep := laws.install_any toothFile false flagDict.yesFlag s.world toothPath
    dsimp only
    split
    · rename_i e w hin
      rw [hin] at hkeep
      refine ⟨[.install toothFile false flagDict.yesFlag, .logError e], rfl, by simp, ?_⟩
      intro hinst
      refine ⟨?_, hkeep hinst⟩
      intro installed m y hmem
      simp only [List.mem_cons, Event.install.injEq, List.mem_singleton, List.not_mem_nil,
        or_false] at hmem
      rcases hmem with ⟨h1, _, _⟩ | hmem
      · rw [h1]; exact hne hinst
      · cases hmem
    · rename_i w hin
      rw [hin] at hkeep
      refine ⟨[.install toothFile false flagDict.yesFlag], rfl, by simp, ?_⟩
      intro hinst
      refine ⟨?_, hkeep hinst⟩
      intro installed m y hmem
      simp only [List.mem_singleton, Event.install.injEq] at hmem
      rw [hmem.1]; exact hne hinst

theorem installLoop_ext {σ : Type} (env : Env σ) (laws : KeepsInstalled env)
    (flagDict : FlagDict) (list : List ToothFile) (s : State σ) (toothPath : String) :
    ∃ ext, (installLoop env flagDict list s).state.trace = s.trace ++ ext ∧
      (∀ name possession, Event.uninstall name possession ∉ ext) ∧
      (env.IsToothInstalled toothPath s.world = .ok true →
        ∀ installed m y, Event.install installed m y ∈ ext →
          installed.metadata.toothPath ≠ toothPath) := by
  induction list generalizing s with
  | nil => exact ⟨[], by simp [installLoop, Step.state], by simp, by simp⟩
  | cons toothFile rest ih =>
    obtain ⟨ext, h1, h2, h3⟩ := installOne_ext env laws flagDict toothFile s toothPath
    simp only [installLoop]
    cases hone : installOne env flagDict toothFile s with
    | stop s1 =>
      rw [hone] at h1
      exact ⟨ext, h1, h2, fun hinst => (h3 hinst).1⟩
    | next u s1 =>
      rw [hone] at h1 h3
      simp only [Step.state] at h1 h3
      obtain ⟨ext2, k1, k2, k3⟩ := ih s1
      refine ⟨ext ++ ext2, by dsimp only; rw [k1, h1, List.append_assoc], ?_, ?_⟩
      · intro name possession hmem
        rcases List.mem_append.mp hmem with hmem | hmem
        · exact h2 _ _ hmem
        · exact k2 _ _ hmem
      · intro hinst installed m y hmem
        rcases List.mem_append.mp hmem with hmem | hmem
        · exact (h3 hinst).1 _ _ _ hmem
        · exact k3 (h3 hinst).2 _ _ _ hmem

/-- Steps 3 and 4: a tooth path that is installed when step 3 starts and whose
record file step 3 does not uninstall is never passed to `Install`. -/
theorem applySteps_skips_installed {σ : Type} (env : Env σ) (laws : KeepsInstalled env)
    (flagDict : FlagDict) (specifierList : List Specifier) (d : List (String × String))
    (s : State σ) (toothPath : String)
    (hinst : env.IsToothInstalled toothPath s.world = .ok true) :
    ∃ ext, (applySteps env flagDict specifierList d s).2.trace = s.trace ++ ext ∧
      ((∀ possession, Event.uninstall (env.GetRecordFileName toothPath) possession ∉ ext) →
        ∀ installed m y, Event.install installed m y ∈ ext →
          installed.metadata.toothPath ≠ toothPath) := by
  have h3 : ∃ ext, (upgradeStep env flagDict d specifierList s).state.trace = s.trace ++ ext ∧
      (∀ toothFile m y, Event.install toothFile m y ∉ ext) ∧
      ((∀ possession, Event.uninstall (env.GetRecordFileName toothPath) possession ∉ ext) →
        env.IsToothInstalled toothPath
          (upgradeStep env flagDict d specifierList s).state.world = .ok true) := by
    unfold upgradeStep
    split
    · obtain ⟨ext, k1, k2, k3⟩ := upgradeLoop_ext env laws flagDict d specifierList s toothPath
      exact ⟨ext, k1, k2, k3 hinst⟩
    · exact ⟨[], by simp [Step.state], by simp, fun _ => hinst⟩
  obtain ⟨ext3, k1, k2, k3⟩ := h3
  unfold applySteps
  cases hup : upgradeStep env flagDict d specifierList s with
  | stop s1 =>
    rw [hup] at k1
    exact ⟨ext3, k1, fun _ installed m y hmem => absurd hmem (k2 _ _ _)⟩
  | next u s1 =>
    rw [hup] at k1 k3
    simp only [Step.state] at k1 k3
    dsimp only
    have hlog : ∀ message : String,
        ∃ ext, (s1.emit [.logError message]).trace = s.trace ++ ext ∧
        ((∀ possession, Event.uninstall (env.GetRecordFileName toothPath) possession ∉ ext) →
          ∀ installed m y, Event.install installed m y ∈ ext →
            installed.metadata.toothPath ≠ toothPath) := by
      intro message
      refine ⟨ext3 ++ [.logError message], by simp [State.emit, k1], ?_⟩
      intro _ installed m y hmem
      rcases List.mem_append.mp hmem with hmem | hmem
      · exact absurd hmem (k2 _ _ _)
      · simp at hmem
    cases hin : installStep env flagDict d s1 with
    | stop s2 =>
      dsimp only
      unfold installStep at hin
      split at hin
      · rename_i s3 hopen
        obtain ⟨message, hs3⟩ := openDownloaded_stop env _ _ _ _ hopen
        cases hin
        subst hs3
        exact hlog message
      · rename_i list s3 hopen
        have hs3 := openDownloaded_next env _ _ _ _ _ hopen
        subst hs3
        split at hin
        · cases hin
          exact hlog _
        · rename_i sorted hsort
          obtain ⟨ext4, g1, _, g3⟩ := installLoop_ext env laws flagDict sorted s3 toothPath
          rw [hin] at g1
          simp only [Step.state] at g1
          refine ⟨ext3 ++ ext4, by rw [g1, k1, List.append_assoc], ?_⟩
          intro hno installed m y hmem
          rcases List.mem_append.mp hmem with hmem | hmem
          · exact absurd hmem (k2 _ _ _)
          · exact g3 (k3 (fun possession hm => hno possession (List.mem_append_left _ hm)))
              _ _ _ hmem
    | next u2 s2 =>
      dsimp only
      unfold installStep at hin
      split at hin
      · cases hin
      · rename_i list s3 hopen
        have hs3 := openDownloaded_next env _ _ _ _ _ hopen
        subst hs3
        split at hin
        · cases hin
        · rename_i sorted hsort
          obtain ⟨ext4, g1, _, g3⟩ := installLoop_ext env laws flagDict sorted s3 toothPath
          rw [hin] at g1
          simp only [Step.state] at g1
          refine ⟨ext3 ++ ext4, by rw [g1, k1, List.append_assoc], ?_⟩
          intro hno installed m y hmem
          rcases List.mem_append.mp hmem with hmem | hmem
          · exact absurd hmem (k2 _ _ _)
          · exact g3 (k3 (fun possession hm => hno possession (List.mem_append_left _ hm)))
              _ _ _ hmem

end cmdlipinstall

open cmdlipinstall in
/-- The decision of one step-3 iteration for a root requirement specifier whose
tooth file opens, is reported installed and whose record can be read. -/
theorem step3_iteration_decision {σ : Type} (env : Env σ) (flagDict : FlagDict)
    (d : List (String × String)) (specifier : Specifier) (rest : List Specifier)
    (s : State σ) (toothFile : ToothFile) (recordDir : String) (toothRecord : ToothRecord)
    (hreq : specifier.specifierType = .RequirementSpecifierType)
    (hopen : env.toothfileNew ((d.lookup specifier.string).getD "") s.world = .ok toothFile)
    (hinst : env.IsToothInstalled toothFile.metadata.toothPath s.world = .ok true)
    (hdir : env.RecordDir s.world = .ok recordDir)
    (hrec : env.toothrecordNew
      (env.filepathJoin recordDir (env.GetRecordFileName toothFile.metadata.toothPath))
      s.world = .ok toothRecord) :
    ((∃ name possession tail, (upgradeStep env flagDict d [specifier] s).state.trace =
          s.trace ++ .uninstall name possession :: tail) ↔
      (flagDict.forceReinstallFlag = true ∨
        (flagDict.upgradeFlag = true ∧
          versions.GreaterThan toothFile.metadata.version toothRecord.version = true))) ∧
    ((flagDict.forceReinstallFlag = true ∨
        (flagDict.upgradeFlag = true ∧
          versions.GreaterThan toothFile.metadata.version toothRecord.version = true)) →
      upgradeStep env flagDict d (specifier :: rest) s =
        match env.Uninstall (env.GetRecordFileName toothFile.metadata.toothPath)
            toothFile.metadata.possession s.world with
        | (some e, world) =>
          .stop { world := world, trace := s.trace ++
            [.uninstall (env.GetRecordFileName toothFile.metadata.toothPath)
              toothFile.metadata.possession, .logError e] }
        | (none, world) =>
          upgradeStep env flagDict d rest { world := world, trace := s.trace ++
            [.uninstall (env.GetRecordFileName toothFile.metadata.toothPath)
              toothFile.metadata.possession] }) ∧
    (¬ (flagDict.forceReinstallFlag = true ∨
        (flagDict.upgradeFlag = true ∧
          versions.GreaterThan toothFile.metadata.version toothRecord.version = true)) →
      upgradeStep env flagDict d (specifier :: rest) s = upgradeStep env flagDict d rest s ∧
      installOne env flagDict toothFile s = .next () s) := by
  have hone : upgradeOne env flagDict d specifier s =
      if !flagDict.forceReinstallFlag &&
          !versions.GreaterThan toothFile.metadata.version toothRecord.version then
        .next () s
      else
        match env.Uninstall (env.GetRecordFileName toothFile.metadata.toothPath)
            toothFile.metadata.possession s.world with
        | (some e, world) =>
          .stop { world := world, trace := s.trace ++
            [.uninstall (env.GetRecordFileName toothFile.metadata.toothPath)
              toothFile.metadata.possession, .logError e] }
        | (none, world) =>
          .next () { world := world, trace := s.trace ++
            [.uninstall (env.GetRecordFileName toothFile.metadata.toothPath)
              toothFile.metadata.possession] } := by
    simp [upgradeOne, hreq, hopen, hinst, hdir, hrec]
  have hskip : installOne env flagDict toothFile s = .next () s := by
    simp [installOne, hinst]
  by_cases hf : flagDict.forceReinstallFlag = true
  · -- force-reinstall
    have hcond : (!flagDict.forceReinstallFlag &&
        !versions.GreaterThan toothFile.metadata.version toothRecord.version) = false := by
      simp [hf]
    rw [hcond] at hone
    refine ⟨⟨fun _ => Or.inl hf, fun _ => ?_⟩, fun _ => ?_, fun hn => absurd (Or.inl hf) hn⟩
    · cases hu : env.Uninstall (env.GetRecordFileName toothFile.metadata.toothPath)
          toothFile.metadata.possession s.world with
      | mk err world =>
        cases err <;>
          simp [upgradeStep, upgradeLoop, hf, hone, hu, Step.state]
    · cases hu : env.Uninstall (env.GetRecordFileName toothFile.metadata.toothPath)
          toothFile.metadata.possession s.world with
      | mk err world =>
        cases err <;>
          simp [upgradeStep, upgradeLoop, hf, hone, hu]
  · have hf2 : flagDict.forceReinstallFlag = false := by simpa using hf
    by_cases hup : flagDict.upgradeFlag = true
    · by_cases hgt : versions.GreaterThan toothFile.metadata.version toothRecord.version = true
      · have hcond : (!flagDict.forceReinstallFlag &&
            !versions.GreaterThan toothFile.metadata.version toothRecord.version) = false := by
          simp [hgt]
        rw [hcond] at hone
        refine ⟨⟨fun _ => Or.inr ⟨hup, hgt⟩, fun _ => ?_⟩, fun _ => ?_,
          fun hn => absurd (Or.inr ⟨hup, hgt⟩) hn⟩
        · cases hu : env.Uninstall (env.GetRecordFileName toothFile.metadata.toothPath)
              toothFile.metadata.possession s.world with
          | mk err world =>
            cases err <;>
              simp [upgradeStep, upgradeLoop, hf2, hup, hone, hu, Step.state]
        · cases hu : env.Uninstall (env.GetRecordFileName toothFile.metadata.toothPath)
              toothFile.metadata.possession s.world with
          | mk err world =>
            cases err <;>
              simp [upgradeStep, upgradeLoop, hf2, hup, hone, hu]
      · have hgt2 : versions.GreaterThan toothFile.metadata.version toothRecord.version =
            false := by simpa using hgt
        have hcond : (!flagDict.forceReinstallFlag &&
            !versions.GreaterThan toothFile.metadata.version toothRecord.version) = true := by
          simp [hf2, hgt2]
        rw [hcond] at hone
        refine ⟨⟨fun h => ?_, fun h => ?_⟩, fun h => ?_, fun _ => ⟨?_, hskip⟩⟩
        · obtain ⟨name, possession, tail, h⟩ := h
          simp [upgradeStep, upgradeLoop, hf2, hup, hone, Step.state] at h
        · rcases h with h | ⟨_, h⟩
          · exact absurd h hf
          · exact absurd h hgt
        · rcases h with h | ⟨_, h⟩
          · exact absurd h hf
          · exact absurd h hgt
        · simp [upgradeStep, upgradeLoop, hf2, hup, hone]
    · have hup2 : flagDict.upgradeFlag = false := by simpa using hup
      refine ⟨⟨fun h => ?_, fun h => ?_⟩, fun h => ?_, fun _ => ⟨?_, hskip⟩⟩
      · obtain ⟨name, possession, tail, h⟩ := h
        simp [upgradeStep, hf2, hup2, Step.state] at h
      · rcases h with h | ⟨h, _⟩
        · exact absurd h hf
        · exact absurd h hup
      · rcases h with h | ⟨h, _⟩
        · exact absurd h hf
        · exact absurd h hup
      · simp [upgradeStep, hf2, hup2]


namespace sim

/-- In the simulated world an installed tooth path stays installed through the
`Uninstall` of another record file and through any `Install`. -/
theorem env_keeps (repo : Repo) : cmdlipinstall.KeepsInstalled (env repo) where
  uninstall_other := by
    intro name possession w toothPath hne h
    simp only [env, Except.ok.injEq, List.any_eq_true, decide_eq_true_eq] at h
    obtain ⟨r, hr, hp⟩ := h
    simp only [env, Except.ok.injEq, List.any_eq_true, List.mem_filter, decide_eq_true_eq,
      Bool.not_eq_true', decide_eq_false_iff_not]
    refine ⟨r, ⟨hr, ?_⟩, hp⟩
    intro hname
    exact hne (by rw [← hname, hp]; rfl)
  install_any := by
    intro toothFile m y w toothPath h
    simp only [env, Except.ok.injEq, List.any_eq_true, decide_eq_true_eq] at h
    obtain ⟨r, hr, hp⟩ := h
    simp only [env, Except.ok.injEq, List.any_eq_true, List.mem_append, List.mem_singleton,
      decide_eq_true_eq]
    exact ⟨r, Or.inl hr, hp⟩

end sim

open cmdlipinstall in
/-- C4, amended: in step 3, for a root requirement specifier whose resolved
tooth file opens, is reported installed and whose record can be read,
`Uninstall` is called exactly when `forceReinstallFlag` is set, or `upgradeFlag` is set and
the version of the tooth file is strictly greater than the version of the
record.  When it is called, the call is the next event and the loop goes on
with the remaining roots (or `Run` returns, if `Uninstall` fails).  Otherwise
step 3 goes on with the remaining roots in the same state, and the body of the
step-4 loop, run on this tooth file in that state, skips it without calling
`Install`.  Over the whole of steps 3 and 4: when an installed tooth path stays
installed through other calls (`KeepsInstalled`) and step 3 makes no
`Uninstall` for the record file of this tooth path, no `Install` is made for
this tooth path. -/
theorem upgrade_decision {σ : Type} (env : Env σ) (flagDict : FlagDict)
    (d : List (String × String)) (specifier : Specifier) (rest : List Specifier)
    (s : State σ) (toothFile : ToothFile) (recordDir : String) (toothRecord : ToothRecord)
    (hreq : specifier.specifierType = .RequirementSpecifierType)
    (hopen : env.toothfileNew ((d.lookup specifier.string).getD "") s.world = .ok toothFile)
    (hinst : env.IsToothInstalled toothFile.metadata.toothPath s.world = .ok true)
    (hdir : env.RecordDir s.world = .ok recordDir)
    (hrec : env.toothrecordNew
      (env.filepathJoin recordDir (env.GetRecordFileName toothFile.metadata.toothPath))
      s.world = .ok toothRecord) :
    ((∃ name possession tail, (upgradeStep env flagDict d [specifier] s).state.trace =
          s.trace ++ .uninstall name possession :: tail) ↔
      (flagDict.forceReinstallFlag = true ∨
        (flagDict.upgradeFlag = true ∧
          versions.GreaterThan toothFile.metadata.version toothRecord.version = true))) ∧
    ((flagDict.forceReinstallFlag = true ∨
        (flagDict.upgradeFlag = true ∧
          versions.GreaterThan toothFile.metadata.version toothRecord.version = true)) →
      upgradeStep env flagDict d (specifier :: rest) s =
        match env.Uninstall (env.GetRecordFileName toothFile.metadata.toothPath)
            toothFile.metadata.possession s.world with
        | (some e, world) =>
          .stop { world := world, trace := s.trace ++
            [.uninstall (env.GetRecordFileName toothFile.metadata.toothPath)
              toothFile.metadata.possession, .logError e] }
        | (none, world) =>
          upgradeStep env flagDict d rest { world := world, trace := s.trace ++
            [.uninstall (env.GetRecordFileName toothFile.metadata.toothPath)
              toothFile.metadata.possession] }) ∧
    (¬ (flagDict.forceReinstallFlag = true ∨
        (flagDict.upgradeFlag = true ∧
          versions.GreaterThan toothFile.metadata.version toothRecord.version = true)) →
      upgradeStep env flagDict d (specifier :: rest) s = upgradeStep env flagDict d rest s ∧
      installOne env flagDict toothFile s = .next () s) ∧
    (KeepsInstalled env →
      ∃ ext, (applySteps env flagDict (specifier :: rest) d s).2.trace = s.trace ++ ext ∧
        ((∀ possession, Event.uninstall (env.GetRecordFileName toothFile.metadata.toothPath)
            possession ∉ ext) →
          ∀ installed m y, Event.install installed m y ∈ ext →
            installed.metadata.toothPath ≠ toothFile.metadata.toothPath)) := by
  have h := step3_iteration_decision env flagDict d specifier rest s toothFile recordDir
    toothRecord hreq hopen hinst hdir hrec
  exact ⟨h.1, h.2.1, h.2.2, fun laws =>
    applySteps_skips_installed env laws flagDict (specifier :: rest) d s
      toothFile.metadata.toothPath hinst⟩

open cmdlipinstall in
/-- C4 at a concrete input: `a` 1.0.0 is installed and `--upgrade a@1.0.0`
resolves to the same version: step 3 leaves the state as it is, with `b@1.0.0`
still to process, the step-4 body skips the tooth file, and steps 3 and 4 make
no `Install` for `a`. -/
theorem upgrade_decision_witness :
    (upgradeStep (sim.env sim.repoTwo) ⟨false, true, false, false⟩ [("a@1.0.0", "cache/a")]
        [sim.requirement "a@1.0.0", sim.requirement "b@1.0.0"]
        { world := sim.worldAB, trace := [] } =
      upgradeStep (sim.env sim.repoTwo) ⟨false, true, false, false⟩ [("a@1.0.0", "cache/a")]
        [sim.requirement "b@1.0.0"] { world := sim.worldAB, trace := [] } ∧
    installOne (sim.env sim.repoTwo) ⟨false, true, false, false⟩
        (sim.tooth "cache/a" "a" sim.v100 [] ["a.dll"])
        { world := sim.worldAB, trace := [] } =
      .next () { world := sim.worldAB, trace := [] }) ∧
    (∃ ext, (applySteps (sim.env sim.repoTwo) ⟨false, true, false, false⟩
          [sim.requirement "a@1.0.0", sim.requirement "b@1.0.0"] [("a@1.0.0", "cache/a")]
          { world := sim.worldAB, trace := [] }).2.trace = [] ++ ext ∧
        ((∀ possession, Event.uninstall "a.json" possession ∉ ext) →
          ∀ installed m y, Event.install installed m y ∈ ext →
            installed.metadata.toothPath ≠ "a")) :=
  ⟨(upgrade_decision (sim.env sim.repoTwo) ⟨false, true, false, false⟩
      [("a@1.0.0", "cache/a")] (sim.requirement "a@1.0.0") [sim.requirement "b@1.0.0"]
      { world := sim.worldAB, trace := [] } (sim.tooth "cache/a" "a" sim.v100 [] ["a.dll"])
      "records" (sim.recordOf (sim.tooth "cache/a" "a" sim.v100 [] ["a.dll"]) true)
      rfl rfl rfl rfl rfl).2.2.1 (by decide),
   (upgrade_decision (sim.env sim.repoTwo) ⟨false, true, false, false⟩
      [("a@1.0.0", "cache/a")] (sim.requirement "a@1.0.0") [sim.requirement "b@1.0.0"]
      { world := sim.worldAB, trace := [] } (sim.tooth "cache/a" "a" sim.v100 [] ["a.dll"])
      "records" (sim.recordOf (sim.tooth "cache/a" "a" sim.v100 [] ["a.dll"]) true)
      rfl rfl rfl rfl rfl).2.2.2 (sim.env_keeps sim.repoTwo)⟩

/-- C11: the help message lists eight commands; `Run` rejects four of them as
unknown.  For `autoremove` it makes no call to `cmdlipautoremove.Run` and
returns "unknown command: lip autoremove", because the case label reads
`autoreremove`: it is that misspelt word which reaches `cmdlipautoremove.Run`
with the remaining arguments.  `show`, `tooth` and `uninstall` have no case at
all. -/
theorem listed_commands_rejected (env : cmdlip.Env) (rest : List String) :
    cmdlip.listedCommands =
      ["autoremove", "cache", "exec", "install", "list", "show", "tooth", "uninstall"] ∧
    cmdlip.Run env ("lip" :: "autoremove" :: rest) =
      ([], .error (.unknownCommand "autoremove")) ∧
    (cmdlip.Run env ("lip" :: "autoreremove" :: rest)).1 = [⟨"cmdlipautoremove", rest⟩] ∧
    cmdlip.Run env ("lip" :: "show" :: rest) = ([], .error (.unknownCommand "show")) ∧
    cmdlip.Run env ("lip" :: "tooth" :: rest) = ([], .error (.unknownCommand "tooth")) ∧
    cmdlip.Run env ("lip" :: "uninstall" :: rest) =
      ([], .error (.unknownCommand "uninstall")) := by
  refine ⟨by decide, ?_, ?_, ?_, ?_, ?_⟩
  · have h : goflag.Parse ["help", "h", "version", "V", "verbose", "v", "quiet", "q"]
        ("autoremove" :: rest) = .ok ([], "autoremove" :: rest) := by
      simp [goflag.Parse]
    simp [cmdlip.Run, h, goflag.boolVar, cmdlip.dispatch]
  · have h : goflag.Parse ["help", "h", "version", "V", "verbose", "v", "quiet", "q"]
        ("autoreremove" :: rest) = .ok ([], "autoreremove" :: rest) := by
      simp [goflag.Parse]
    cases hr : env.cmdlipautoremoveRun rest <;>
      simp [cmdlip.Run, h, goflag.boolVar, cmdlip.dispatch, hr]
  · have h : goflag.Parse ["help", "h", "version", "V", "verbose", "v", "quiet", "q"]
        ("show" :: rest) = .ok ([], "show" :: rest) := by
      simp [goflag.Parse]
    simp [cmdlip.Run, h, goflag.boolVar, cmdlip.dispatch]
  · have h : goflag.Parse ["help", "h", "version", "V", "verbose", "v", "quiet", "q"]
        ("tooth" :: rest) = .ok ([], "tooth" :: rest) := by
      simp [goflag.Parse]
    simp [cmdlip.Run, h, goflag.boolVar, cmdlip.dispatch]
  · have h : goflag.Parse ["help", "h", "version", "V", "verbose", "v", "quiet", "q"]
        ("uninstall" :: rest) = .ok ([], "uninstall" :: rest) := by
      simp [goflag.Parse]
    simp [cmdlip.Run, h, goflag.boolVar, cmdlip.dispatch]

/-! ### The manual-install flag of the calls of `Install` -/

namespace cmdlipinstall

theorem upgradeOne_manual {σ : Type} (env : Env σ) (flagDict : FlagDict)
    (d : List (String × String)) (specifier : Specifier) (s : State σ) :
    (upgradeOne env flagDict d specifier s).state.trace.filter Event.manual =
      s.trace.filter Event.manual := by
  unfold upgradeOne
  repeat' (first | split | (dsimp only; split))
  all_goals simp [Step.state, State.emit, List.filter_append, List.filter, Event.manual]

theorem upgradeLoop_manual {σ : Type} (env : Env σ) (flagDict : FlagDict)
    (d : List (String × String)) (specifierList : List Specifier) (s : State σ) :
    (upgradeLoop env flagDict d specifierList s).state.trace.filter Event.manual =
      s.trace.filter Event.manual := by
  induction specifierList generalizing s with
  | nil => simp [upgradeLoop, Step.state]
  | cons specifier rest ih =>
    have h1 := upgradeOne_manual env flagDict d specifier s
    simp only [upgradeLoop]
    cases hone : upgradeOne env flagDict d specifier s with
    | stop s1 =>
      rw [hone] at h1
      simpa [Step.state] using h1
    | next u s1 =>
      rw [hone] at h1
      simp only [Step.state] at h1
      dsimp only
      rw [ih, h1]

/-- The body of the install loop passes `false` for `isManuallyInstalled`. -/
theorem installOne_manual {σ : Type} (env : Env σ) (flagDict : FlagDict)
    (toothFile : ToothFile) (s : State σ) :
    (installOne env flagDict toothFile s).state.trace.filter Event.manual =
      s.trace.filter Event.manual := by
  unfold installOne
  repeat' (first | split | (dsimp only; split))
  all_goals simp [Step.state, State.emit, List.filter_append, List.filter, Event.manual]

theorem installLoop_manual {σ : Type} (env : Env σ) (flagDict : FlagDict)
    (list : List ToothFile) (s : State σ) :
    (installLoop env flagDict list s).state.trace.filter Event.manual =
      s.trace.filter Event.manual := by
  induction list generalizing s with
  | nil => simp [installLoop, Step.state]
  | cons toothFile rest ih =>
    have h1 := installOne_manual env flagDict toothFile s
    simp only [installLoop]
    cases hone : installOne env flagDict toothFile s with
    | stop s1 =>
      rw [hone] at h1
      simpa [Step.state] using h1
    | next u s1 =>
      rw [hone] at h1
      simp only [Step.state] at h1
      dsimp only
      rw [ih, h1]

theorem applySteps_manual {σ : Type} (env : Env σ) (flagDict : FlagDict)
    (specifierList : List Specifier) (d : List (String × String)) (s : State σ) :
    (applySteps env flagDict specifierList d s).2.trace.filter Event.manual =
      s.trace.filter Event.manual := by
  have h3 : (upgradeStep env flagDict d specifierList s).state.trace.filter Event.manual =
      s.trace.filter Event.manual := by
    unfold upgradeStep
    split
    · exact upgradeLoop_manual env flagDict d specifierList s
    · rfl
  unfold applySteps
  cases hup : upgradeStep env flagDict d specifierList s with
  | stop s1 =>
    rw [hup] at h3
    simpa [Step.state] using h3
  | next u s1 =>
    rw [hup] at h3
    simp only [Step.state] at h3
    have h4 : (installStep env flagDict d s1).state.trace.filter Event.manual =
        s1.trace.filter Event.manual := by
      unfold installStep
      split
      · rename_i s2 hopen
        obtain ⟨message, hs2⟩ := openDownloaded_stop env _ _ _ _ hopen
        subst hs2
        simp [Step.state, State.emit, List.filter_append, List.filter, Event.manual]
      · rename_i list s2 hopen
        have hs2 := openDownloaded_next env _ _ _ _ _ hopen
        subst hs2
        split
        · simp [Step.state, State.emit, List.filter_append, List.filter, Event.manual]
        · exact installLoop_manual env flagDict _ _
    dsimp only
    cases hin : installStep env flagDict d s1 with
    | stop s2 =>
      rw [hin] at h4
      simp only [Step.state] at h4
      dsimp only
      rw [h4, h3]
    | next u2 s2 =>
      rw [hin] at h4
      simp only [Step.state] at h4
      dsimp only
      rw [h4, h3]

/-- Steps 2 to 4 from an empty trace: no event of the trace is a call of
`Install` with `isManuallyInstalled` true. -/
theorem runSteps_manual {σ : Type} (env : Env σ) (fuel : Nat) (flagDict : FlagDict)
    (specifierList : List Specifier) (world : σ) :
    ∀ e ∈ (runSteps env fuel flagDict specifierList { world := world, trace := [] }).2.trace,
      e.manual = false := by
  have hres := resolve_no_change env fuel specifierList [] { world := world, trace := [] }
  have hnone : ∀ e ∈ (resolve env fuel specifierList []
      { world := world, trace := [] }).state.trace, e.manual = false := by
    intro e he
    cases hm : e.manual with
    | false => rfl
    | true =>
      have hc : e.isChange = true := by
        cases e <;> simp [Event.manual] at hm
        simp [Event.isChange]
      have := hres e he hc
      simp at this
  unfold runSteps
  cases hr : resolve env fuel specifierList [] { world := world, trace := [] } with
  | stop s1 =>
    rw [hr] at hnone
    simpa [Resolved.state] using hnone
  | outOfFuel s1 =>
    rw [hr] at hnone
    simpa [Resolved.state] using hnone
  | done d s1 =>
    rw [hr] at hnone
    simp only [Resolved.state] at hnone
    intro e he
    cases hm : e.manual with
    | false => rfl
    | true =>
      have hmem : e ∈ (applySteps env flagDict specifierList d s1).2.trace.filter
          Event.manual := List.mem_filter.mpr ⟨he, hm⟩
      rw [applySteps_manual] at hmem
      have h1 := hnone e (List.mem_filter.mp hmem).1
      rw [hm] at h1
      cases h1

end cmdlipinstall

open cmdlipinstall in
/-- C12: every call of `Install` made by `Run` passes `false` for
`isManuallyInstalled`, for every argument list, every behaviour of the
collaborators and however the run ends; root teeth and dependencies go through
the same loop. -/
theorem install_never_manual {σ : Type} (env : Env σ) (fuel : Nat) (args : List String)
    (world : σ) (toothFile : ToothFile) (isManuallyInstalled yesFlag : Bool)
    (hcall : Event.install toothFile isManuallyInstalled yesFlag ∈
      (Run env fuel args world).2.trace) :
    isManuallyInstalled = false := by
  have hall : ∀ e ∈ (Run env fuel args world).2.trace, e.manual = false := by
    unfold Run
    split
    · simp
    · split
      · simp
      · simp
      · unfold runParsed
        dsimp only
        split
        · simp
        · split
          · simp [State.emit, Event.manual]
          · split
            · simp [State.emit, Event.manual]
            · exact runSteps_manual env fuel _ _ world
  exact hall _ hcall

open cmdlipinstall in
/-- C12 at a concrete input: `Run a@1.0.0` installs the root `a` and its
dependency `b`, both with `isManuallyInstalled` false. -/
theorem install_never_manual_witness :
    (Run (sim.env sim.repoAB) 10 ["a@1.0.0"] sim.emptyWorld).2.trace.filter Event.isChange =
      [.install (sim.tooth "cache/a" "a" sim.v100 [("b", sim.rangeOneToTwo)] ["a.dll"])
         false false,
       .install (sim.tooth "cache/b2" "b" sim.v200 [] ["b.dll"]) false false] ∧
    false = false :=
  ⟨by decide,
   install_never_manual (sim.env sim.repoAB) 10 ["a@1.0.0"] sim.emptyWorld
     (sim.tooth "cache/a" "a" sim.v100 [("b", sim.rangeOneToTwo)] ["a.dll"]) false false
     (by decide)⟩

open cmdlipinstall in
/-- C4, as stated, fails.  With `a` 1.0.0 installed,
`Run --upgrade a@1.0.0 a@2.0.0` resolves the root `a@1.0.0` to the installed
version, so its own iteration of step 3 calls no `Uninstall`; the iteration of
the root `a@2.0.0` uninstalls `a.json`, and step 4 then calls `Install` for the
tooth file `cache/a` of the root `a@1.0.0`.  And with a record that cannot be
read, `Run --force-reinstall a@1.0.0` returns before any `Uninstall`, although
the tooth is installed and the flag is set. -/
theorem upgrade_skip_undone_by_other_root :
    (sim.worldAB.records.map (fun r => (r.toothPath, r.version))).lookup "a" =
      some sim.v100 ∧
    versions.GreaterThan sim.v100 sim.v100 = false ∧
    (Run (sim.env sim.repoTwo) 10 ["--upgrade", "a@1.0.0", "a@2.0.0"] sim.worldAB).1 =
      .finished ∧
    (Run (sim.env sim.repoTwo) 10 ["--upgrade", "a@1.0.0", "a@2.0.0"]
      sim.worldAB).2.trace.filter Event.isChange =
      [.uninstall "a.json" ["a2.dll"],
       .install (sim.tooth "cache/a" "a" sim.v100 [] ["a.dll"]) false false] ∧
    (Run (sim.envRecordUnreadable sim.repoTwo) 10 ["--force-reinstall", "a@1.0.0"]
      sim.worldAB).1 = .aborted ∧
    (Run (sim.envRecordUnreadable sim.repoTwo) 10 ["--force-reinstall", "a@1.0.0"]
      sim.worldAB).2.trace =
      [.fetch "a@1.0.0", .logError "cannot parse record"] := by
  decide

/-! ### The arguments of the calls of `Uninstall` -/

namespace cmdlipinstall

/-- Every `Uninstall` added by one iteration of step 3 has the record file
name and the possession list of the tooth file the iteration opened. -/
theorem upgradeOne_uninstall_arguments {σ : Type} (env : Env σ) (flagDict : FlagDict)
    (d : List (String × String)) (specifier : Specifier) (s : State σ) (name : String)
    (possession : List String)
    (h : Event.uninstall name possession ∈ (upgradeOne env flagDict d specifier s).state.trace) :
    Event.uninstall name possession ∈ s.trace ∨ FromToothFile env name possession := by
  unfold upgradeOne at h
  split at h
  · simp only [Step.state, State.emit, List.mem_append, List.mem_singleton] at h
    rcases h with h | h
    · exact Or.inl h
    · cases h
  · split at h
    · simp only [Step.state, State.emit, List.mem_append, List.mem_singleton] at h
      rcases h with h | h
      · exact Or.inl h
      · cases h
    · rename_i toothFile hopen
      split at h
      · simp only [Step.state, State.emit, List.mem_append, List.mem_singleton] at h
        rcases h with h | h
        · exact Or.inl h
        · cases h
      · exact Or.inl h
      · rename_i hinst
        split at h
        · simp only [Step.state, State.emit, List.mem_append, List.mem_singleton] at h
          rcases h with h | h
          · exact Or.inl h
          · cases h
        · rename_i recordDir hdir
          dsimp only at h
          split at h
          · simp only [Step.state, State.emit, List.mem_append, List.mem_singleton] at h
            rcases h with h | h
            · exact Or.inl h
            · cases h
          · rename_i toothRecord hrec
            have hshape : Event.uninstall name possession =
                Event.uninstall (env.GetRecordFileName toothFile.metadata.toothPath)
                  toothFile.metadata.possession → FromToothFile env name possession := by
              intro heq
              simp only [Event.uninstall.injEq] at heq
              exact ⟨_, s.world, toothFile, recordDir, toothRecord, hopen, hinst, hdir, hrec,
                heq.1, heq.2⟩
            split at h
            · exact Or.inl h
            · split at h
              · simp only [Step.state, List.mem_append, List.mem_cons, List.mem_singleton,
                  List.not_mem_nil, or_false] at h
                rcases h with h | h | h
                · exact Or.inl h
                · exact Or.inr (hshape h)
                · cases h
              · simp only [Step.state, List.mem_append, List.mem_singleton] at h
                rcases h with h | h
                · exact Or.inl h
                · exact Or.inr (hshape h)

theorem upgradeLoop_uninstall_arguments {σ : Type} (env : Env σ) (flagDict : FlagDict)
    (d : List (String × String)) (specifierList : List Specifier) (s : State σ)
    (name : String) (possession : List String)
    (h : Event.uninstall name possession ∈
      (upgradeLoop env flagDict d specifierList s).state.trace) :
    Event.uninstall name possession ∈ s.trace ∨ FromToothFile env name possession := by
  induction specifierList generalizing s with
  | nil => exact Or.inl (by simpa [upgradeLoop, Step.state] using h)
  | cons specifier rest ih =>
    have h1 := upgradeOne_uninstall_arguments env flagDict d specifier s name possession
    simp only [upgradeLoop] at h
    cases hone : upgradeOne env flagDict d specifier s with
    | stop s1 =>
      rw [hone] at h h1
      exact h1 h
    | next u s1 =>
      rw [hone] at h h1
      dsimp only at h
      rcases ih s1 h with h2 | h2
      · exact h1 h2
      · exact Or.inr h2

theorem installOne_uninstalls {σ : Type} (env : Env σ) (flagDict : FlagDict)
    (toothFile : ToothFile) (s : State σ) :
    (installOne env flagDict toothFile s).state.trace.filter Event.isUninstall =
      s.trace.filter Event.isUninstall := by
  unfold installOne
  repeat' (first | split | (dsimp only; split))
  all_goals simp [Step.state, State.emit, List.filter_append, List.filter, Event.isUninstall]

theorem installLoop_uninstalls {σ : Type} (env : Env σ) (flagDict : FlagDict)
    (list : List ToothFile) (s : State σ) :
    (installLoop env flagDict list s).state.trace.filter Event.isUninstall =
      s.trace.filter Event.isUninstall := by
  induction list generalizing s with
  | nil => simp [installLoop, Step.state]
  | cons toothFile rest ih =>
    have h1 := installOne_uninstalls env flagDict toothFile s
    simp only [installLoop]
    cases hone : installOne env flagDict toothFile s with
    | stop s1 =>
      rw [hone] at h1
      simpa [Step.state] using h1
    | next u s1 =>
      rw [hone] at h1
      simp only [Step.state] at h1
      dsimp only
      rw [ih, h1]

theorem installStep_uninstalls {σ : Type} (env : Env σ) (flagDict : FlagDict)
    (d : List (String × String)) (s : State σ) :
    (installStep env flagDict d s).state.trace.filter Event.isUninstall =
      s.trace.filter Event.isUninstall := by
  unfold installStep
  split
  · rename_i s2 hopen
    obtain ⟨message, hs2⟩ := openDownloaded_stop env _ _ _ _ hopen
    subst hs2
    simp [Step.state, State.emit, List.filter_append, List.filter, Event.isUninstall]
  · rename_i list s2 hopen
    have hs2 := openDownloaded_next env _ _ _ _ _ hopen
    subst hs2
    split
    · simp [Step.state, State.emit, List.filter_append, List.filter, Event.isUninstall]
    · exact installLoop_uninstalls env flagDict _ _

/-- Steps 2 to 4 from an empty trace: every `Uninstall` of the trace has the
arguments step 3 builds from a downloaded tooth file. -/
theorem runSteps_uninstall_arguments {σ : Type} (env : Env σ) (fuel : Nat)
    (flagDict : FlagDict) (specifierList : List Specifier) (world : σ) (name : String)
    (possession : List String)
    (h : Event.uninstall name possession ∈
      (runSteps env fuel flagDict specifierList { world := world, trace := [] }).2.trace) :
    FromToothFile env name possession := by
  have hres := resolve_no_change env fuel specifierList [] { world := world, trace := [] }
  unfold runSteps at h
  cases hr : resolve env fuel specifierList [] { world := world, trace := [] } with
  | stop s1 =>
    rw [hr] at h hres
    have := hres _ h rfl
    simp at this
  | outOfFuel s1 =>
    rw [hr] at h hres
    have := hres _ h rfl
    simp at this
  | done d s1 =>
    rw [hr] at h hres
    simp only [Resolved.state] at hres
    dsimp only at h
    have hnot : Event.uninstall name possession ∉ s1.trace := by
      intro hmem
      have := hres _ hmem rfl
      simp at this
    have h3 : Event.uninstall name possession ∈
        (upgradeStep env flagDict d specifierList s1).state.trace →
        FromToothFile env name possession := by
      intro hmem
      unfold upgradeStep at hmem
      split at hmem
      · rcases upgradeLoop_uninstall_arguments env flagDict d specifierList s1 name possession
          hmem with h2 | h2
        · exact absurd h2 hnot
        · exact h2
      · exact absurd hmem hnot
    unfold applySteps at h
    cases hup : upgradeStep env flagDict d specifierList s1 with
    | stop s2 =>
      rw [hup] at h h3
      exact h3 h
    | next u s2 =>
      rw [hup] at h h3
      simp only [Step.state] at h3
      dsimp only at h
      have h4 := installStep_uninstalls env flagDict d s2
      have hmem : Event.uninstall name possession ∈ (installStep env flagDict d s2).state.trace := by
        cases hin : installStep env flagDict d s2 with
        | stop s3 => rw [hin] at h; exact h
        | next u2 s3 => rw [hin] at h; exact h
      have hfil : Event.uninstall name possession ∈
          (installStep env flagDict d s2).state.trace.filter Event.isUninstall :=
        List.mem_filter.mpr ⟨hmem, rfl⟩
      rw [h4] at hfil
      exact h3 (List.mem_filter.mp hfil).1

end cmdlipinstall

open cmdlipinstall in
/-- C5, amended: every call of `Uninstall` made by `Run` is made in step 3 for
a downloaded tooth file that opens, is reported installed and whose record has
been read; its first argument is the record file name of the tooth path of the
tooth file and its second argument is the possession list declared by that
(new) tooth file, whatever possession the record read holds. -/
theorem uninstall_arguments_from_tooth_file {σ : Type} (env : Env σ) (fuel : Nat)
    (args : List String) (world : σ) (name : String) (possession : List String)
    (hcall : Event.uninstall name possession ∈ (Run env fuel args world).2.trace) :
    ∃ (path : String) (w : σ) (toothFile : ToothFile) (recordDir : String)
      (toothRecord : ToothRecord),
      env.toothfileNew path w = .ok toothFile ∧
      env.IsToothInstalled toothFile.metadata.toothPath w = .ok true ∧
      env.RecordDir w = .ok recordDir ∧
      env.toothrecordNew
        (env.filepathJoin recordDir (env.GetRecordFileName toothFile.metadata.toothPath)) w =
        .ok toothRecord ∧
      name = env.GetRecordFileName toothFile.metadata.toothPath ∧
      possession = toothFile.metadata.possession := by
  unfold Run at hcall
  split at hcall
  · simp at hcall
  · split at hcall
    · simp at hcall
    · simp at hcall
    · unfold runParsed at hcall
      dsimp only at hcall
      split at hcall
      · simp at hcall
      · split at hcall
        · simp [State.emit] at hcall
        · split at hcall
          · simp [State.emit] at hcall
          · exact runSteps_uninstall_arguments env fuel _ _ world name possession hcall

open cmdlipinstall in
/-- C5, amended, at a concrete input: in `Run --upgrade a@2.0.0` with `a` 1.0.0
installed, the call `Uninstall("a.json", ["a2.dll"])` carries the possession
declared by a tooth file that opens. -/
theorem uninstall_arguments_from_tooth_file_witness :
    ∃ (path : String) (w : sim.World) (toothFile : ToothFile) (recordDir : String)
      (toothRecord : ToothRecord),
      (sim.env sim.repoTwo).toothfileNew path w = .ok toothFile ∧
      (sim.env sim.repoTwo).IsToothInstalled toothFile.metadata.toothPath w = .ok true ∧
      (sim.env sim.repoTwo).RecordDir w = .ok recordDir ∧
      (sim.env sim.repoTwo).toothrecordNew
        ((sim.env sim.repoTwo).filepathJoin recordDir
          ((sim.env sim.repoTwo).GetRecordFileName toothFile.metadata.toothPath)) w =
        .ok toothRecord ∧
      "a.json" = (sim.env sim.repoTwo).GetRecordFileName toothFile.metadata.toothPath ∧
      ["a2.dll"] = toothFile.metadata.possession :=
  uninstall_arguments_from_tooth_file (sim.env sim.repoTwo) 10 ["--upgrade", "a@2.0.0"]
    sim.worldAB "a.json" ["a2.dll"] (by decide)

end Lip
